

import Mathlib

/-!
Verification development for `threads_to_sheets.py`.

The script fetches posts from the Threads API (`fetch_threads_posts`),
enriches them with insight metrics (`refine_posts_stats`) and reconciles
them into a Google spreadsheet (`update_sheet`).  The embedding below
translates those three functions into Lean.  External I/O is made
explicit: the feed response and the per-post insights responses become
arguments, and the sheet mutations performed by `update_sheet` become a
pure `Output` value (`headerWritten`, `updates`, `appends`) together with
an `applyOutput` function that plays the role of the Google Sheets
service executing those writes on the grid.
-/

namespace ThreadsToSheets

/-- A spreadsheet cell as seen through `gspread`: either a string or a
number.  Appended rows mix both (index and metric cells are numbers,
date, text, topic and permalink cells are strings). -/
inductive Cell where
  | str : String → Cell
  | nat : Nat → Cell
deriving DecidableEq, Repr

/-- A sheet row is a list of cells; the script's schema has 10 columns
(A "Idx" .. J "Permalink"). -/
abbrev Row := List Cell

/-- A post record as produced by the Threads feed and mutated by the
enricher.  Every field is optional, mirroring Python `dict.get`: `none`
models an absent key.  The six metric fields are absent on freshly
fetched posts and are only set by `refine_posts_stats`. -/
structure Post where
  id : Option String := none
  media_type : Option String := none
  permalink : Option String := none
  text : Option String := none
  timestamp : Option String := none
  is_quote_post : Option Bool := none
  views : Option Nat := none
  likes : Option Nat := none
  replies : Option Nat := none
  reposts : Option Nat := none
  quotes : Option Nat := none
  shares : Option Nat := none
deriving DecidableEq, Repr

/-- The JSON body of the feed endpoint: `resp.json().get("data", [])`. -/
structure FeedResponse where
  data : Option (List Post) := none

/-- Model of `fetch_threads_posts` (lines 44-70): after the GET succeeds, take the
`data` array (defaulting to `[]`) and drop every post whose `media_type`
is `"REPOST_FACADE"`.  A missing `media_type` compares unequal to the
string in Python, so such posts are kept. -/
def fetch_threads_posts (resp : FeedResponse) : List Post :=
  (resp.data.getD []).filter (fun p => decide (p.media_type ≠ some "REPOST_FACADE"))

/-- One element of an insights response `values` array:
`{"value": ...}`, with the value possibly absent. -/
structure ValueEntry where
  value : Option Nat := none
deriving DecidableEq, Repr

/-- One element of an insights response `data` array:
`{"name": ..., "values": [...]}`. -/
structure MetricEntry where
  name : Option String := none
  values : List ValueEntry := []
deriving DecidableEq, Repr

/-- Model of `values[0].get("value", 0) if values else 0` (line 103). -/
def entryValue (e : MetricEntry) : Nat :=
  match e.values with
  | [] => 0
  | v :: _ => v.value.getD 0

/-- Model of `post[name] = ...` (line 103): writing a metric key onto the post
dict.  Keys other than the six known metric names land on the dict but
are never read back by the script, so they are observationally the
identity here. -/
def setMetric (p : Post) (name : Option String) (v : Nat) : Post :=
  match name with
  | some "views" => { p with views := some v }
  | some "likes" => { p with likes := some v }
  | some "replies" => { p with replies := some v }
  | some "reposts" => { p with reposts := some v }
  | some "quotes" => { p with quotes := some v }
  | some "shares" => { p with shares := some v }
  | _ => p

/-- Processing of one entry of the insights `data` array (lines 100-103). -/
def applyEntry (p : Post) (e : MetricEntry) : Post :=
  setMetric p e.name (entryValue e)

/-- The entry loop of `refine_posts_stats` for one post: fold the
response entries onto the post dict. -/
def enrichWith (entries : List MetricEntry) (p : Post) : Post :=
  entries.foldl applyEntry p

/-- Body of `refine_posts_stats` for one post (lines 86-103).  `insights`
is the external API: it maps a media id to the `data` array of the
insights response.  A post whose `id` is absent or empty (falsy in
Python, line 88) is skipped unchanged. -/
def refineOne (insights : String → List MetricEntry) (p : Post) : Post :=
  match p.id with
  | none => p
  | some mid => if mid = "" then p else enrichWith (insights mid) p

/-- Model of `refine_posts_stats` (lines 73-105): enrich every post in order. -/
def refine_posts_stats (insights : String → List MetricEntry) (posts : List Post) :
    List Post :=
  posts.map (refineOne insights)

/-- The media ids for which `refine_posts_stats` issues an insights GET
(line 91): one request per post that has a non-falsy `id`. -/
def refineRequests (posts : List Post) : List String :=
  posts.filterMap (fun p =>
    match p.id with
    | none => none
    | some mid => if mid = "" then none else some mid)

/-! ### Timestamp parsing and formatting

`update_sheet` turns `post["timestamp"]` into a display string with
`datetime.fromisoformat(ts.replace("+0000", "+00:00")).astimezone(KST)
.strftime("%Y. %m. %d %H:%M")` (lines 157-163).  The feed emits
timestamps of the shape `YYYY-MM-DDTHH:MM:SS+0000`; we model
`fromisoformat` on exactly that shape (after the `replace`):
`YYYY-MM-DDTHH:MM:SS±HH:MM` with full range validation, failing
(`none`) on anything else, which is the fail-fast behaviour the script
shows on malformed timestamps.  `astimezone(KST)` is a fixed +09:00
shift (Asia/Seoul has no DST). -/

/-- Python `str.replace`: scan left to right, replace each
non-overlapping occurrence of the pattern.  The `skip` counter swallows
the matched pattern characters after a hit.  (An empty pattern is
treated as no-op; the script only ever replaces `"+0000"`.) -/
def replaceScan (pat rep : List Char) : Nat → List Char → List Char
  | _, [] => []
  | skip + 1, _ :: cs => replaceScan pat rep skip cs
  | 0, c :: cs =>
    if pat.isPrefixOf (c :: cs) ∧ pat ≠ [] then
      rep ++ replaceScan pat rep (pat.length - 1) cs
    else c :: replaceScan pat rep 0 cs

/-- Model of `str.replace("+0000", "+00:00")`. -/
def fixOffsetColon (s : String) : String :=
  String.mk (replaceScan "+0000".data "+00:00".data 0 s.data)

/-- Two-digit decimal read. -/
def two (a b : Char) : Nat :=
  (a.toNat - 48) * 10 + (b.toNat - 48)

/-- Gregorian leap year test, as `calendar`/`datetime` define it. -/
def isLeap (y : Nat) : Bool :=
  decide ((y % 4 = 0 ∧ ¬ y % 100 = 0) ∨ y % 400 = 0)

/-- Days of each month, for `fromisoformat` range validation. -/
def daysInMonth (y m : Nat) : Nat :=
  if m = 2 then (if isLeap y then 29 else 28)
  else if m = 4 ∨ m = 6 ∨ m = 9 ∨ m = 11 then 30
  else 31

/-- Civil date to day count (days since 1970-01-01); divisions are
floor divisions on nonnegative era values. -/
def daysFromCivil (y m d : Int) : Int :=
  let yy : Int := if m ≤ 2 then y - 1 else y
  let era : Int := yy / 400
  let yoe : Int := yy - era * 400
  let mp : Int := if m ≤ 2 then m + 9 else m - 3
  let doy : Int := (153 * mp + 2) / 5 + d - 1
  let doe : Int := yoe * 365 + yoe / 4 - yoe / 100 + doy
  era * 146097 + doe - 719468

/-- Day count (days since 1970-01-01) back to civil date. -/
def civilFromDays (z0 : Int) : Int × Int × Int :=
  let z : Int := z0 + 719468
  let era : Int := z / 146097
  let doe : Int := z - era * 146097
  let yoe : Int := (doe - doe / 1460 + doe / 36524 - doe / 146096) / 365
  let y : Int := yoe + era * 400
  let doy : Int := doe - (365 * yoe + yoe / 4 - yoe / 100)
  let mp : Int := (5 * doy + 2) / 153
  let d : Int := doy - (153 * mp + 2) / 5 + 1
  let m : Int := if mp < 10 then mp + 3 else mp - 9
  (if m ≤ 2 then y + 1 else y, m, d)

/-- Parse the offset suffix `±HH:MM`; `none` on anything malformed. -/
def parseOffset (cs : List Char) : Option Int :=
  match cs with
  | [sg, h1, h2, ':', m1, m2] =>
    if (sg = '+' ∨ sg = '-') ∧ h1.isDigit ∧ h2.isDigit ∧ m1.isDigit ∧ m2.isDigit
        ∧ two h1 h2 ≤ 23 ∧ two m1 m2 ≤ 59 then
      let mins : Int := (two h1 h2 : Int) * 60 + (two m1 m2 : Int)
      some (if sg = '-' then -mins else mins)
    else none
  | _ => none

/-- Model of `datetime.fromisoformat` on the feed's timestamp shape, returning
the instant as minutes since 1970-01-01T00:00 UTC (seconds are dropped:
the display format keeps only hours and minutes).  `none` on a
malformed string (wrong shape, non-digits, out-of-range fields), which
in the script is a `ValueError` aborting the run. -/
def parseTimestamp (s : String) : Option Int :=
  match s.data with
  | y1 :: y2 :: y3 :: y4 :: '-' :: mo1 :: mo2 :: '-' :: d1 :: d2 :: 'T' ::
      h1 :: h2 :: ':' :: mi1 :: mi2 :: ':' :: s1 :: s2 :: rest =>
    if y1.isDigit ∧ y2.isDigit ∧ y3.isDigit ∧ y4.isDigit
        ∧ mo1.isDigit ∧ mo2.isDigit ∧ d1.isDigit ∧ d2.isDigit
        ∧ h1.isDigit ∧ h2.isDigit ∧ mi1.isDigit ∧ mi2.isDigit
        ∧ s1.isDigit ∧ s2.isDigit then
      let y := two y1 y2 * 100 + two y3 y4
      let mo := two mo1 mo2
      let d := two d1 d2
      let h := two h1 h2
      let mi := two mi1 mi2
      let sec := two s1 s2
      if 1 ≤ y ∧ 1 ≤ mo ∧ mo ≤ 12 ∧ 1 ≤ d ∧ d ≤ daysInMonth y mo
          ∧ h ≤ 23 ∧ mi ≤ 59 ∧ sec ≤ 59 then
        match parseOffset rest with
        | some off =>
          some (daysFromCivil (y : Int) (mo : Int) (d : Int) * 1440
                + (h : Int) * 60 + (mi : Int) - off)
        | none => none
      else none
    else none
  | _ => none

/-- Left-pad a numeral to two digits, as `strftime` `%m`/`%d`/`%H`/`%M`. -/
def pad2 (n : Nat) : String :=
  if n < 10 then "0" ++ toString n else toString n

/-- Render an instant (UTC minutes) in KST (+09:00) as
`"%Y. %m. %d %H:%M"`. -/
def formatMinutesKST (utcMin : Int) : String :=
  let t : Int := utcMin + 540
  let days : Int := t.fdiv 1440
  let rem : Int := t.fmod 1440
  let ymd := civilFromDays days
  toString ymd.1 ++ ". " ++ pad2 ymd.2.1.toNat ++ ". " ++ pad2 ymd.2.2.toNat
    ++ " " ++ pad2 (rem.fdiv 60).toNat ++ ":" ++ pad2 (rem.fmod 60).toNat

/-- The whole timestamp pipeline of lines 157-163: replace the bare
`+0000` offset, parse, convert to KST, format.  `none` models the
`ValueError`/`KeyError` abort. -/
def formatTimestamp (s : String) : Option String :=
  (parseTimestamp (fixOffsetColon s)).map formatMinutesKST

/-! ### The reconciler: `update_sheet` (lines 122-199)

The sheet is a `List Row`.  `sheet.get_all_records()` interprets the
first row as the header and returns the remaining rows as records; the
script addresses the records through the fixed 10-column schema it
maintains (column J, index 9, is "Permalink"), which is how we read
them here.  The function's effect on the sheet is captured as an
`Output`: whether the header row was appended, the list of bounded
range updates `E{row}:I{row}` (1-based row position together with the
five metric values), and the list of appended rows, in order. -/

/-- The header row of line 127. -/
def header : Row :=
  [Cell.str "Idx", Cell.str "Date", Cell.str "Text", Cell.str "Topic",
   Cell.str "Views", Cell.str "Likes", Cell.str "Replies",
   Cell.str "Reposts/Quotes", Cell.str "Shares", Cell.str "Permalink"]

/-- Python truthiness of a cell value, for `if rec.get("Permalink")`
(line 148): empty strings and zero are falsy. -/
def truthyCell (c : Cell) : Bool :=
  match c with
  | Cell.str s => decide (s ≠ "")
  | Cell.nat n => decide (n ≠ 0)

/-- The "Permalink" cell of a record row (column J, index 9); an
absent cell reads as the empty string, like `dict.get`. -/
def permalinkCell (r : Row) : Cell :=
  r.getD 9 (Cell.str "")

/-- The dict comprehension of lines 145-149 with the enumeration index
carried explicitly: records with a falsy permalink contribute no
binding, the others bind their permalink to `idx + 2`. -/
def existingMapFrom (i : Nat) : List Row → List (Cell × Nat)
  | [] => []
  | rec :: rest =>
    if truthyCell (permalinkCell rec) then
      (permalinkCell rec, i + 2) :: existingMapFrom (i + 1) rest
    else existingMapFrom (i + 1) rest

/-- The dict comprehension of lines 145-149:
`{rec["Permalink"]: idx + 2 for idx, rec in enumerate(records)
  if rec.get("Permalink")}`, kept as an association list in insertion
order.  Row positions are 1-based and offset by the header row. -/
def existingMap (records : List Row) : List (Cell × Nat) :=
  existingMapFrom 0 records

/-- Python dict lookup on the association list: the last binding of a
key wins, absent keys give `none` (`permalink in existing_map`). -/
def lookupLast (m : List (Cell × Nat)) (k : Cell) : Option Nat :=
  m.foldl (fun acc kv => if kv.1 = k then some kv.2 else acc) none

/-- Model of `post.get("permalink", "")` (line 156). -/
def postPermalink (p : Post) : String :=
  p.permalink.getD ""

/-- The sort key `x["timestamp"]` of line 155; the reconciler first
checks that no post lacks the key (a missing key raises `KeyError`
inside `sorted`, aborting the run before any row is touched). -/
def tsKey (p : Post) : String :=
  p.timestamp.getD ""

/-- The five metric values written for a post, columns E..I
(lines 167-173 and 187-191): views, likes, replies, reposts+quotes
combined, shares, each defaulting to 0. -/
def metricsValues (p : Post) : List Nat :=
  [p.views.getD 0, p.likes.getD 0, p.replies.getD 0,
   p.reposts.getD 0 + p.quotes.getD 0, p.shares.getD 0]

/-- The characters before the first newline: `split('\n')[0]`. -/
def firstLineChars : List Char → List Char
  | [] => []
  | c :: cs => if c = '\n' then [] else c :: firstLineChars cs

/-- Model of the expression `post.get("text", "").split("\n")[0] if
post.get("text") else ""` of line 185. -/
def textFirstLine (p : Post) : String :=
  match p.text with
  | none => ""
  | some t => if t = "" then "" else String.mk (firstLineChars t.data)

/-- A freshly appended row (lines 181-194): index, date text (prefixed
with an apostrophe to force text format), first line of the text, blank
Topic, the five metric values, permalink. -/
def newRow (idx : Nat) (ts : String) (p : Post) : Row :=
  [Cell.nat idx, Cell.str ("\x27" ++ ts), Cell.str (textFirstLine p),
   Cell.str "",
   Cell.nat (p.views.getD 0), Cell.nat (p.likes.getD 0),
   Cell.nat (p.replies.getD 0),
   Cell.nat (p.reposts.getD 0 + p.quotes.getD 0),
   Cell.nat (p.shares.getD 0),
   Cell.str (postPermalink p)]

/-- Python string comparison: lexicographic by code point. -/
def lexLe : List Char → List Char → Bool
  | [], _ => true
  | _ :: _, [] => false
  | a :: as, b :: bs => if a = b then lexLe as bs else decide (a.toNat < b.toNat)

/-- The sort key order of line 155: `x["timestamp"]` compared as
Python strings. -/
def tsLe (a b : Post) : Bool :=
  lexLe (tsKey a).data (tsKey b).data

/-- Model of `sorted(stats, key=lambda x: x["timestamp"])` (line 155): a stable
sort on the timestamp string; ISO timestamps with a fixed offset order
lexicographically exactly as they order chronologically. -/
def sortPosts (stats : List Post) : List Post :=
  List.insertionSort (fun a b => tsLe a b = true) stats

/-- Errors aborting `update_sheet`: `KeyError` from the sort key of
line 155, or `ValueError` from `datetime.fromisoformat` (line 158). -/
inductive ReconcileError where
  | missingTimestamp
  | badTimestamp (s : String)
deriving DecidableEq, Repr

/-- The effect of one `update_sheet` run on the sheet: header append
(line 141), bounded updates `E{row}:I{row}` (lines 174-178) and row
appends (lines 197-198), each in emission order. -/
structure Output where
  headerWritten : Bool
  updates : List (Nat × List Nat)
  appends : List Row
deriving DecidableEq, Repr

/-- Loop accumulator: the running next index (line 153) plus the
updates and appends emitted so far. -/
structure Acc where
  idx : Nat
  updates : List (Nat × List Nat)
  appends : List Row
deriving DecidableEq, Repr

/-- One iteration of the loop of lines 155-195.  The timestamp is
formatted before the branch, so a malformed timestamp aborts the run
whether or not the permalink matches. -/
def step (emap : List (Cell × Nat)) (acc : Acc) (p : Post) :
    Except ReconcileError Acc :=
  match formatTimestamp (tsKey p) with
  | none => Except.error (ReconcileError.badTimestamp (tsKey p))
  | some ts =>
    match lookupLast emap (Cell.str (postPermalink p)) with
    | some row =>
      Except.ok { acc with updates := acc.updates ++ [(row, metricsValues p)] }
    | none =>
      Except.ok { idx := acc.idx + 1, updates := acc.updates,
                  appends := acc.appends ++ [newRow acc.idx ts p] }

/-- The permalink-to-position map the reconciler builds for a given
sheet state (lines 140-150): empty when there are no records, otherwise
the dict of lines 145-149.  `sheet.get_all_records()` yields the rows
after the header row. -/
def reconMap (sheet : List Row) : List (Cell × Nat) :=
  if (sheet.drop 1).isEmpty then [] else existingMap (sheet.drop 1)

/-- The seed of the running index counter (lines 143 and 150): 1 on an
empty sheet, the record count plus one otherwise. -/
def startIdx (sheet : List Row) : Nat :=
  if (sheet.drop 1).isEmpty then 1 else (sheet.drop 1).length + 1

/-- Model of `update_sheet` as a pure reconciliation function from the enriched
posts and the current sheet state to the emitted sheet writes.  The
header row is appended exactly when there are no records (line 140). -/
def reconcile (stats : List Post) (sheet : List Row) :
    Except ReconcileError Output :=
  if stats.any (fun p => p.timestamp.isNone) then
    Except.error ReconcileError.missingTimestamp
  else
    match (sortPosts stats).foldlM (step (reconMap sheet))
        ⟨startIdx sheet, [], []⟩ with
    | Except.error e => Except.error e
    | Except.ok acc =>
      Except.ok ⟨(sheet.drop 1).isEmpty, acc.updates, acc.appends⟩

/-! ### The sheet service executing the emitted writes

`sheet.append_row` appends a row at the bottom; `sheet.update` on
`E{row}:I{row}` overwrites exactly the five cells E..I of the addressed
row (Google Sheets pads a short row with empty cells up to the written
range, which the padding below reproduces). -/

/-- Pad a row with empty cells to the 10-column schema width. -/
def padRow (r : Row) : Row :=
  r ++ List.replicate (10 - r.length) (Cell.str "")

/-- Model of the call updating the bounded range E..I of one row
restricted to the addressed row: overwrite columns 4..8. -/
def applyRowUpdate (vals : List Nat) (r : Row) : Row :=
  (padRow r).take 4 ++ vals.map Cell.nat ++ (padRow r).drop 9

/-- The range update on the whole grid: `rowPos` is 1-based. -/
def applyUpdate (vals : List Nat) : Nat → List Row → List Row
  | _, [] => []
  | pos, r :: rest =>
    if pos = 1 then applyRowUpdate vals r :: rest
    else if pos = 0 then r :: rest
    else r :: applyUpdate vals (pos - 1) rest

/-- Execute a list of range updates in order. -/
def applyUpdates (us : List (Nat × List Nat)) (sheet : List Row) : List Row :=
  us.foldl (fun s u => applyUpdate u.2 u.1 s) sheet

/-- Execute a whole `Output` on a sheet, in the order `update_sheet`
performs the writes: the header append happens first (line 141), the
range updates during the loop, the row appends after it (lines
197-198). -/
def applyOutput (sheet : List Row) (out : Output) : List Row :=
  let s1 := if out.headerWritten then sheet ++ [header] else sheet
  applyUpdates out.updates s1 ++ out.appends

/-- Read one cell of the grid (1-based nowhere: `i` is the 0-based row
index, `j` the 0-based column); absent cells read as empty strings. -/
def cellAt (sheet : List Row) (i j : Nat) : Cell :=
  (sheet.getD i []).getD j (Cell.str "")

/-- The five metric cells (columns E..I) of the row at 1-based
position `rowPos`. -/
def metricCells (sheet : List Row) (rowPos : Nat) : List Cell :=
  ((sheet.getD (rowPos - 1) []).drop 4).take 5

/-! ### Observers on the reconciler, for the statements below -/

/-- Whether a post's permalink matches an existing row
(`permalink in existing_map`, line 165). -/
def matchedB (emap : List (Cell × Nat)) (p : Post) : Bool :=
  (lookupLast emap (Cell.str (postPermalink p))).isSome

/-- The update a post contributes when its permalink matches. -/
def postUpdate (emap : List (Cell × Nat)) (p : Post) : Option (Nat × List Nat) :=
  (lookupLast emap (Cell.str (postPermalink p))).map (fun r => (r, metricsValues p))

/-- The rows the loop appends for a list of posts processed in order,
starting the index counter at `idx`. -/
def appendRows (emap : List (Cell × Nat)) (idx : Nat) : List Post → List Row
  | [] => []
  | p :: ps =>
    if matchedB emap p then appendRows emap idx ps
    else newRow idx ((formatTimestamp (tsKey p)).getD "") p ::
      appendRows emap (idx + 1) ps

/-! ### Characterizing the reconciliation loop -/

/-! ### Concrete inputs and outputs used by the witnesses -/

/-- The six counter names the enricher requests (lines 77-84). -/
def sixMetricNames : List String :=
  ["views", "likes", "replies", "reposts", "quotes", "shares"]

/-- Read one of the six metric fields of a post by name. -/
def metricField (p : Post) (n : String) : Option Nat :=
  match n with
  | "views" => p.views
  | "likes" => p.likes
  | "replies" => p.replies
  | "reposts" => p.reposts
  | "quotes" => p.quotes
  | "shares" => p.shares
  | _ => none

/-- Input post for the C2 witness: matches the sheet row `P1`. -/
def wPostC2 : Post :=
  { permalink := some "P1", timestamp := some "2024-01-01T10:00:00+0000",
    views := some 50 }

/-- Sheet for the C2 witness: header plus one row with permalink
`P1` and a user-edited Topic. -/
def wSheetC2 : List Row :=
  [header,
   [Cell.nat 1, Cell.str "\x272024. 01. 01 19:00", Cell.str "hello",
    Cell.str "mytopic", Cell.nat 1, Cell.nat 2, Cell.nat 3, Cell.nat 4,
    Cell.nat 5, Cell.str "P1"]]

/-- The output of the C2 witness run: one update of row 2, no appends. -/
def wOutC2 : Output :=
  ⟨false, [(2, [50, 0, 0, 0, 0])], []⟩

/-- Earlier post for the C5 witness. -/
def wPostC5a : Post :=
  { permalink := some "P1", timestamp := some "2024-01-01T10:00:00+0000" }

/-- Later post for the C5 witness. -/
def wPostC5b : Post :=
  { permalink := some "P2", timestamp := some "2024-01-02T10:00:00+0000" }

/-- The output of the C5 witness run. -/
def wOutC5 : Output :=
  ⟨true, [],
   [[Cell.nat 1, Cell.str "\x272024. 01. 01 19:00", Cell.str "",
     Cell.str "", Cell.nat 0, Cell.nat 0, Cell.nat 0, Cell.nat 0,
     Cell.nat 0, Cell.str "P1"],
    [Cell.nat 2, Cell.str "\x272024. 01. 02 19:00", Cell.str "",
     Cell.str "", Cell.nat 0, Cell.nat 0, Cell.nat 0, Cell.nat 0,
     Cell.nat 0, Cell.str "P2"]]⟩

/-- Post with an empty permalink for the C10 witness. -/
def wPostC10 : Post :=
  { timestamp := some "2024-01-01T10:00:00+0000" }

/-- Sheet for the C10 witness: a data row whose Permalink cell is
empty, which must not be matched against. -/
def wSheetC10 : List Row :=
  [header,
   [Cell.nat 1, Cell.str "d", Cell.str "t", Cell.str "",
    Cell.nat 1, Cell.nat 2, Cell.nat 3, Cell.nat 4, Cell.nat 5,
    Cell.str ""]]

/-- The output of the C10 witness run: no update, one append carrying
an empty permalink. -/
def wOutC10 : Output :=
  ⟨false, [],
   [[Cell.nat 2, Cell.str "\x272024. 01. 01 19:00", Cell.str "",
     Cell.str "", Cell.nat 0, Cell.nat 0, Cell.nat 0, Cell.nat 0,
     Cell.nat 0, Cell.str ""]]⟩

/-- Matched post for the C4 witness. -/
def wPostC4a : Post :=
  { permalink := some "P1", timestamp := some "2024-01-01T10:00:00+0000",
    views := some 50 }

/-- New post for the C4 witness. -/
def wPostC4b : Post :=
  { permalink := some "P2", timestamp := some "2024-01-02T10:00:00+0000",
    views := some 10 }

/-- Sheet for the C4 witness: header plus one `P1` row. -/
def wSheetC4 : List Row :=
  [header,
   [Cell.nat 1, Cell.str "d", Cell.str "t", Cell.str "topic",
    Cell.nat 1, Cell.nat 2, Cell.nat 3, Cell.nat 4, Cell.nat 5,
    Cell.str "P1"]]

/-- First-run output for the C4 witness: one update, one append. -/
def wOutC4 : Output :=
  ⟨false, [(2, [50, 0, 0, 0, 0])],
   [[Cell.nat 2, Cell.str "\x272024. 01. 02 19:00", Cell.str "",
     Cell.str "", Cell.nat 10, Cell.nat 0, Cell.nat 0, Cell.nat 0,
     Cell.nat 0, Cell.str "P2"]]⟩

/-- Matched post for the C1 witness. -/
def wPostC1a : Post :=
  { permalink := some "P1", timestamp := some "2024-01-03T10:00:00+0000",
    views := some 9 }

/-- New post for the C1 witness. -/
def wPostC1b : Post :=
  { permalink := some "P2", timestamp := some "2024-01-02T10:00:00+0000" }

/-- Sheet for the C1 witness: one data row with permalink `P1`. -/
def wSheetC1 : List Row :=
  [header,
   [Cell.nat 1, Cell.str "d", Cell.str "t", Cell.str "",
    Cell.nat 1, Cell.nat 2, Cell.nat 3, Cell.nat 4, Cell.nat 5,
    Cell.str "P1"]]

/-- Output of the C1 witness run: one update (P1), one append (P2). -/
def wOutC1 : Output :=
  ⟨false, [(2, [9, 0, 0, 0, 0])],
   [[Cell.nat 2, Cell.str "\x272024. 01. 02 19:00", Cell.str "",
     Cell.str "", Cell.nat 0, Cell.nat 0, Cell.nat 0, Cell.nat 0,
     Cell.nat 0, Cell.str "P2"]]⟩

/-- Output of the C3 witness run: both posts appended in timestamp
order with indices 2 and 3 (seeded from the one existing record). -/
def wOutC3 : Output :=
  ⟨false, [],
   [[Cell.nat 2, Cell.str "\x272024. 01. 02 19:00", Cell.str "",
     Cell.str "", Cell.nat 0, Cell.nat 0, Cell.nat 0, Cell.nat 0,
     Cell.nat 0, Cell.str "P2"],
    [Cell.nat 3, Cell.str "\x272024. 01. 03 19:00", Cell.str "",
     Cell.str "", Cell.nat 9, Cell.nat 0, Cell.nat 0, Cell.nat 0,
     Cell.nat 0, Cell.str "P3"]]⟩

/-- New later post for the C3 witness. -/
def wPostC3a : Post :=
  { permalink := some "P3", timestamp := some "2024-01-03T10:00:00+0000",
    views := some 9 }

/-- Sheet for the C3 witness: one data row with permalink `P1`. -/
def wSheetC3 : List Row :=
  [header,
   [Cell.nat 1, Cell.str "d", Cell.str "t", Cell.str "",
    Cell.nat 1, Cell.nat 2, Cell.nat 3, Cell.nat 4, Cell.nat 5,
    Cell.str "P1"]]

/-- A post with a syntactically broken timestamp, for the C8 witness. -/
def badTsPost : Post :=
  { permalink := some "P9", timestamp := some "garbage" }

theorem metricsValues_length (p : Post) : (metricsValues p).length = 5 := rfl

theorem lookupLast_nil (k : Cell) : lookupLast [] k = none := rfl

theorem lookupLast_foldl (m : List (Cell × Nat)) (k : Cell)
    (init : Option Nat) :
    m.foldl (fun acc kv => if kv.1 = k then some kv.2 else acc) init
      = match lookupLast m k with
        | some v => some v
        | none => init := by
  induction m generalizing init with
  | nil => rfl
  | cons kv m ih =>
    show List.foldl _ (if kv.1 = k then some kv.2 else init) m = _
    rw [ih]
    have hm : lookupLast (kv :: m) k
        = List.foldl (fun acc kv => if kv.1 = k then some kv.2 else acc)
            (if kv.1 = k then some kv.2 else none) m := rfl
    rw [hm, ih]
    cases hL : lookupLast m k with
    | some w => rfl
    | none => by_cases h : kv.1 = k <;> simp [h]

theorem lookupLast_cons (kv : Cell × Nat) (m : List (Cell × Nat)) (k : Cell) :
    lookupLast (kv :: m) k
      = match lookupLast m k with
        | some v => some v
        | none => if kv.1 = k then some kv.2 else none := by
  show List.foldl _ (if kv.1 = k then some kv.2 else none) m = _
  rw [lookupLast_foldl]

theorem lookupLast_append (m₁ m₂ : List (Cell × Nat)) (k : Cell) :
    lookupLast (m₁ ++ m₂) k
      = match lookupLast m₂ k with
        | some v => some v
        | none => lookupLast m₁ k := by
  simp only [lookupLast, List.foldl_append]
  rw [lookupLast_foldl]
  rfl

theorem lookupLast_mem {m : List (Cell × Nat)} {k : Cell} {v : Nat}
    (h : lookupLast m k = some v) : (k, v) ∈ m := by
  induction m with
  | nil => simp [lookupLast] at h
  | cons kv m ih =>
    rw [lookupLast_cons] at h
    cases hm : lookupLast m k with
    | some w =>
      rw [hm] at h
      cases h
      exact List.mem_cons_of_mem _ (ih hm)
    | none =>
      rw [hm] at h
      by_cases hk : kv.1 = k
      · rw [if_pos hk] at h
        injection h with h2
        have hkv : (k, v) = kv := by rw [← hk, ← h2]
        exact hkv ▸ List.mem_cons_self kv m
      · simp [hk] at h

theorem step_format_none {emap : List (Cell × Nat)} {acc : Acc} {p : Post}
    (hf : formatTimestamp (tsKey p) = none) :
    step emap acc p = Except.error (ReconcileError.badTimestamp (tsKey p)) := by
  simp [step, hf]

theorem step_matched {emap : List (Cell × Nat)} {acc : Acc} {p : Post}
    {ts : String} {r : Nat}
    (hf : formatTimestamp (tsKey p) = some ts)
    (hl : lookupLast emap (Cell.str (postPermalink p)) = some r) :
    step emap acc p
      = Except.ok { acc with updates := acc.updates ++ [(r, metricsValues p)] } := by
  simp [step, hf, hl]

theorem step_unmatched {emap : List (Cell × Nat)} {acc : Acc} {p : Post}
    {ts : String}
    (hf : formatTimestamp (tsKey p) = some ts)
    (hl : lookupLast emap (Cell.str (postPermalink p)) = none) :
    step emap acc p
      = Except.ok { idx := acc.idx + 1, updates := acc.updates,
                    appends := acc.appends ++ [newRow acc.idx ts p] } := by
  simp [step, hf, hl]

theorem bindOk {α β : Type} (a : α) (f : α → Except ReconcileError β) :
    (Except.ok a >>= f) = f a := rfl

theorem bindError {α β : Type} (e : ReconcileError)
    (f : α → Except ReconcileError β) :
    ((Except.error e : Except ReconcileError α) >>= f) = Except.error e := rfl

/-- The loop characterized: a successful fold emits exactly the updates
of the matched posts (in processing order), appends exactly
`appendRows`, and advances the index counter by the number of
unmatched posts. -/
theorem foldlM_step_ok {emap : List (Cell × Nat)} {posts : List Post}
    {acc acc' : Acc}
    (h : posts.foldlM (step emap) acc = Except.ok acc') :
    acc'.updates = acc.updates ++ posts.filterMap (postUpdate emap)
      ∧ acc'.appends = acc.appends ++ appendRows emap acc.idx posts
      ∧ acc'.idx = acc.idx + posts.countP (fun p => !(matchedB emap p)) := by
  induction posts generalizing acc with
  | nil =>
    rw [List.foldlM_nil] at h
    cases h
    simp [appendRows]
  | cons p ps ih =>
    rw [List.foldlM_cons] at h
    cases hf : formatTimestamp (tsKey p) with
    | none =>
      rw [step_format_none hf, bindError] at h
      cases h
    | some ts =>
      cases hl : lookupLast emap (Cell.str (postPermalink p)) with
      | some r =>
        rw [step_matched hf hl, bindOk] at h
        obtain ⟨h1, h2, h3⟩ := ih h
        have hm : matchedB emap p = true := by simp [matchedB, hl]
        have hu : postUpdate emap p = some (r, metricsValues p) := by
          simp [postUpdate, hl]
        refine ⟨?_, ?_, ?_⟩
        · rw [h1]
          simp [hu, List.filterMap_cons]
        · rw [h2]
          simp [appendRows, hm]
        · rw [h3]
          simp [List.countP_cons, hm]
      | none =>
        rw [step_unmatched hf hl, bindOk] at h
        obtain ⟨h1, h2, h3⟩ := ih h
        have hm : matchedB emap p = false := by simp [matchedB, hl]
        have hu : postUpdate emap p = none := by simp [postUpdate, hl]
        refine ⟨?_, ?_, ?_⟩
        · rw [h1]
          simp [hu, List.filterMap_cons]
        · rw [h2]
          simp [appendRows, hm, hf]
        · rw [h3]
          simp [List.countP_cons, hm]
          omega

/-- A successful fold means every processed post's timestamp parsed. -/
theorem foldlM_step_format {emap : List (Cell × Nat)} {posts : List Post}
    {acc acc' : Acc}
    (h : posts.foldlM (step emap) acc = Except.ok acc') :
    ∀ p ∈ posts, (formatTimestamp (tsKey p)).isSome := by
  induction posts generalizing acc with
  | nil => intro p hp; cases hp
  | cons q ps ih =>
    rw [List.foldlM_cons] at h
    intro p hp
    cases hf : formatTimestamp (tsKey q) with
    | none =>
      rw [step_format_none hf, bindError] at h
      cases h
    | some ts =>
      rcases List.mem_cons.mp hp with hpq | hps
      · subst hpq; simp [hf]
      · cases hl : lookupLast emap (Cell.str (postPermalink q)) with
        | some r =>
          rw [step_matched hf hl, bindOk] at h
          exact ih h p hps
        | none =>
          rw [step_unmatched hf hl, bindOk] at h
          exact ih h p hps

/-- A post with an unparseable timestamp makes the fold fail. -/
theorem foldlM_step_error {emap : List (Cell × Nat)} {posts : List Post}
    {p : Post} (hp : p ∈ posts)
    (hf : formatTimestamp (tsKey p) = none) (acc : Acc) :
    ∃ e, posts.foldlM (step emap) acc = Except.error e := by
  induction posts generalizing acc with
  | nil => cases hp
  | cons q ps ih =>
    rw [List.foldlM_cons]
    cases hq : formatTimestamp (tsKey q) with
    | none =>
      exact ⟨_, by rw [step_format_none hq, bindError]⟩
    | some ts =>
      have hps : p ∈ ps := by
        rcases List.mem_cons.mp hp with hpq | hps
        · subst hpq; rw [hf] at hq; cases hq
        · exact hps
      cases hl : lookupLast emap (Cell.str (postPermalink q)) with
      | some r =>
        rw [step_matched hq hl, bindOk]
        exact ih hps _
      | none =>
        rw [step_unmatched hq hl, bindOk]
        exact ih hps _

/-- When every timestamp parses, the fold succeeds. -/
theorem foldlM_step_total {emap : List (Cell × Nat)} {posts : List Post}
    (hfmt : ∀ p ∈ posts, (formatTimestamp (tsKey p)).isSome) (acc : Acc) :
    ∃ acc', posts.foldlM (step emap) acc = Except.ok acc' := by
  induction posts generalizing acc with
  | nil => exact ⟨acc, rfl⟩
  | cons q ps ih =>
    rw [List.foldlM_cons]
    obtain ⟨ts, hts⟩ := Option.isSome_iff_exists.mp (hfmt q (List.mem_cons_self q ps))
    have hfmt' : ∀ p ∈ ps, (formatTimestamp (tsKey p)).isSome := fun p hp =>
      hfmt p (List.mem_cons_of_mem q hp)
    cases hl : lookupLast emap (Cell.str (postPermalink q)) with
    | some r =>
      rw [step_matched hts hl, bindOk]
      exact ih hfmt' _
    | none =>
      rw [step_unmatched hts hl, bindOk]
      exact ih hfmt' _

/-- A successful `reconcile` run, decomposed: the header flag, the
updates and the appends are exactly those of the loop over the posts
sorted by timestamp. -/
theorem reconcile_ok_char {stats : List Post} {sheet : List Row} {out : Output}
    (h : reconcile stats sheet = Except.ok out) :
    out.headerWritten = (sheet.drop 1).isEmpty
      ∧ out.updates = (sortPosts stats).filterMap (postUpdate (reconMap sheet))
      ∧ out.appends
          = appendRows (reconMap sheet) (startIdx sheet) (sortPosts stats) := by
  unfold reconcile at h
  by_cases hany : stats.any (fun p => p.timestamp.isNone)
  · rw [if_pos hany] at h
    cases h
  · rw [if_neg hany] at h
    cases hfold : (sortPosts stats).foldlM (step (reconMap sheet))
        (⟨startIdx sheet, [], []⟩ : Acc) with
    | error e => rw [hfold] at h; cases h
    | ok acc =>
      rw [hfold] at h
      cases h
      obtain ⟨h1, h2, _⟩ := foldlM_step_ok hfold
      exact ⟨rfl, by simpa using h1, by simpa using h2⟩

/-- A successful run means no post lacked a timestamp and every
timestamp parsed. -/
theorem reconcile_ok_format {stats : List Post} {sheet : List Row} {out : Output}
    (h : reconcile stats sheet = Except.ok out) :
    ∀ p ∈ stats, p.timestamp.isSome ∧ (formatTimestamp (tsKey p)).isSome := by
  unfold reconcile at h
  by_cases hany : stats.any (fun p => p.timestamp.isNone)
  · rw [if_pos hany] at h
    cases h
  · rw [if_neg hany] at h
    intro p hp
    constructor
    · rw [List.any_eq_true] at hany
      push_neg at hany
      have := hany p hp
      simp only [Option.isNone_iff_eq_none] at this
      cases hts : p.timestamp with
      | none => exact absurd (by simp [hts]) this
      | some s => simp
    · cases hfold : (sortPosts stats).foldlM (step (reconMap sheet))
          (⟨startIdx sheet, [], []⟩ : Acc) with
      | error e => rw [hfold] at h; cases h
      | ok acc =>
        exact foldlM_step_format hfold p
          ((List.perm_insertionSort _ stats).mem_iff.mpr hp)

/-- When every timestamp is present and parses, `reconcile` succeeds. -/
theorem reconcile_total {stats : List Post} {sheet : List Row}
    (hts : ∀ p ∈ stats, p.timestamp.isSome)
    (hfmt : ∀ p ∈ stats, (formatTimestamp (tsKey p)).isSome) :
    ∃ out, reconcile stats sheet = Except.ok out := by
  unfold reconcile
  have hany : stats.any (fun p => p.timestamp.isNone) = false := by
    rw [List.any_eq_false]
    intro p hp
    have := hts p hp
    simp only [Option.isNone_iff_eq_none]
    intro hc
    rw [hc] at this
    cases this
  rw [hany]
  simp only [Bool.false_eq_true, if_false]
  obtain ⟨acc, hacc⟩ := @foldlM_step_total (reconMap sheet) (sortPosts stats)
    (fun p hp => hfmt p ((List.perm_insertionSort _ stats).mem_iff.mp hp))
    (⟨startIdx sheet, [], []⟩ : Acc)
  rw [hacc]
  exact ⟨_, rfl⟩

/-! ### Projections of `appendRows` -/

theorem appendRows_length (emap : List (Cell × Nat)) (i : Nat)
    (ps : List Post) :
    (appendRows emap i ps).length
      = ps.countP (fun p => !(matchedB emap p)) := by
  induction ps generalizing i with
  | nil => simp [appendRows]
  | cons p ps ih =>
    by_cases h : matchedB emap p <;>
      simp [appendRows, h, ih, List.countP_cons]

theorem appendRows_idx (emap : List (Cell × Nat)) (i : Nat)
    (ps : List Post) :
    (appendRows emap i ps).map (fun r => r.getD 0 (Cell.str ""))
      = (List.range' i (ps.countP (fun p => !(matchedB emap p)))).map
          Cell.nat := by
  induction ps generalizing i with
  | nil => simp [appendRows]
  | cons p ps ih =>
    by_cases h : matchedB emap p
    · rw [show appendRows emap i (p :: ps) = appendRows emap i ps by
        simp [appendRows, h]]
      rw [ih]
      simp [List.countP_cons, h]
    · have hc : (p :: ps).countP (fun p => !(matchedB emap p))
          = ps.countP (fun p => !(matchedB emap p)) + 1 := by
        simp [List.countP_cons, h]
      rw [hc]
      simp only [appendRows, h, if_false, Bool.false_eq_true, List.map_cons,
        List.range'_succ, ih]
      rfl

theorem appendRows_permalinks (emap : List (Cell × Nat)) (i : Nat)
    (ps : List Post) :
    (appendRows emap i ps).map permalinkCell
      = (ps.filter (fun p => !(matchedB emap p))).map
          (fun p => Cell.str (postPermalink p)) := by
  induction ps generalizing i with
  | nil => simp [appendRows]
  | cons p ps ih =>
    by_cases h : matchedB emap p <;>
      simp [appendRows, h, ih, List.filter_cons, newRow, permalinkCell]

theorem appendRows_metrics (emap : List (Cell × Nat)) (i : Nat)
    (ps : List Post) :
    (appendRows emap i ps).map (fun r => (r.drop 4).take 5)
      = (ps.filter (fun p => !(matchedB emap p))).map
          (fun p => (metricsValues p).map Cell.nat) := by
  induction ps generalizing i with
  | nil => simp [appendRows]
  | cons p ps ih =>
    by_cases h : matchedB emap p <;>
      simp [appendRows, h, ih, List.filter_cons, newRow, metricsValues]

/-! ### Facts about the permalink map -/

theorem existingMapFrom_mem {records : List Row} {kv : Cell × Nat} {i : Nat}
    (h : kv ∈ existingMapFrom i records) :
    truthyCell kv.1
      ∧ i + 2 ≤ kv.2 ∧ kv.2 < i + records.length + 2
      ∧ permalinkCell (records.getD (kv.2 - (i + 2)) []) = kv.1 := by
  induction records generalizing i with
  | nil => cases h
  | cons rec rest ih =>
    unfold existingMapFrom at h
    by_cases ht : truthyCell (permalinkCell rec)
    · rw [if_pos ht] at h
      rcases List.mem_cons.mp h with hkv | hkv
      · subst hkv
        refine ⟨ht, Nat.le_refl _,
          by simp only [List.length_cons]; omega, ?_⟩
        simp
      · obtain ⟨h1, h2, h3, h4⟩ := ih hkv
        refine ⟨h1, by omega,
          by simp only [List.length_cons]; omega, ?_⟩
        have hpos : kv.2 - (i + 2) = (kv.2 - (i + 1 + 2)) + 1 := by omega
        rw [hpos]
        simpa using h4
    · rw [if_neg ht] at h
      obtain ⟨h1, h2, h3, h4⟩ := ih h
      refine ⟨h1, by omega,
        by simp only [List.length_cons]; omega, ?_⟩
      have hpos : kv.2 - (i + 2) = (kv.2 - (i + 1 + 2)) + 1 := by omega
      rw [hpos]
      simpa using h4

/-- Every binding of the reconciler's map has a truthy key; in
particular the empty permalink is never a key. -/
theorem reconMap_key_truthy {sheet : List Row} {kv : Cell × Nat}
    (h : kv ∈ reconMap sheet) : truthyCell kv.1 := by
  unfold reconMap at h
  by_cases he : (sheet.drop 1).isEmpty
  · rw [if_pos he] at h
    cases h
  · rw [if_neg he] at h
    exact (existingMapFrom_mem h).1

/-- Looking up the empty permalink in the reconciler's map always
fails: rows whose Permalink cell is empty are filtered out of the dict
comprehension. -/
theorem reconMap_lookup_empty (sheet : List Row) :
    lookupLast (reconMap sheet) (Cell.str "") = none := by
  cases hl : lookupLast (reconMap sheet) (Cell.str "") with
  | none => rfl
  | some v =>
    have hmem := lookupLast_mem hl
    have := reconMap_key_truthy hmem
    simp [truthyCell] at this

theorem existingMapFrom_cons (i : Nat) (rec : Row) (rest : List Row) :
    existingMapFrom i (rec :: rest)
      = if truthyCell (permalinkCell rec) then
          (permalinkCell rec, i + 2) :: existingMapFrom (i + 1) rest
        else existingMapFrom (i + 1) rest := rfl

/-- The comprehension splits over an appended record list. -/
theorem existingMapFrom_append (i : Nat) (a b : List Row) :
    existingMapFrom i (a ++ b)
      = existingMapFrom i a ++ existingMapFrom (i + a.length) b := by
  induction a generalizing i with
  | nil => simp [existingMapFrom]
  | cons rec rest ih =>
    simp only [List.cons_append]
    rw [existingMapFrom_cons, existingMapFrom_cons, List.length_cons]
    by_cases ht : truthyCell (permalinkCell rec)
    · rw [if_pos ht, if_pos ht, ih]
      rw [show i + (rest.length + 1) = i + 1 + rest.length from by omega]
      simp
    · rw [if_neg ht, if_neg ht, ih]
      rw [show i + (rest.length + 1) = i + 1 + rest.length from by omega]

/-- The comprehension only reads the Permalink cells: two record lists
agreeing cell-wise on column J produce the same map. -/
theorem existingMapFrom_congr {r1 r2 : List Row} {i : Nat}
    (hlen : r1.length = r2.length)
    (hpl : ∀ j, j < r1.length →
      permalinkCell (r1.getD j []) = permalinkCell (r2.getD j [])) :
    existingMapFrom i r1 = existingMapFrom i r2 := by
  induction r1 generalizing r2 i with
  | nil =>
    cases r2 with
    | nil => rfl
    | cons b bs => cases hlen
  | cons a as ih =>
    cases r2 with
    | nil => cases hlen
    | cons b bs =>
      have h0 : permalinkCell a = permalinkCell b := by
        have := hpl 0 (by simp)
        simpa using this
      have hrest : existingMapFrom (i + 1) as = existingMapFrom (i + 1) bs := by
        refine ih (by simpa using hlen) ?_
        intro j hj
        have := hpl (j + 1) (by simp; omega)
        simpa using this
      unfold existingMapFrom
      rw [h0, hrest]

/-! ### Frame properties of the sheet writes -/

theorem padRow_length (r : Row) : 10 ≤ (padRow r).length := by
  simp [padRow]
  omega

theorem padRow_getD (r : Row) (j : Nat) :
    (padRow r).getD j (Cell.str "") = r.getD j (Cell.str "") := by
  simp only [padRow, List.getD_eq_getElem?_getD, List.getElem?_append]
  by_cases hj : j < r.length
  · rw [if_pos hj]
  · rw [if_neg hj]
    rw [List.getElem?_eq_none (by omega : r.length ≤ j)]
    cases hr : (List.replicate (10 - r.length) (Cell.str ""))[j - r.length]? with
    | none => rfl
    | some c =>
      have := List.getElem?_mem hr
      rw [List.eq_of_mem_replicate this]
      rfl

theorem applyRowUpdate_length (vals : List Nat) (r : Row)
    (h5 : vals.length = 5) :
    (applyRowUpdate vals r).length = (padRow r).length := by
  have h10 := padRow_length r
  simp [applyRowUpdate, h5]
  omega

theorem applyRowUpdate_getD_out {vals : List Nat} {r : Row} {j : Nat}
    (h5 : vals.length = 5) (hj : j < 4 ∨ 8 < j) :
    (applyRowUpdate vals r).getD j (Cell.str "")
      = r.getD j (Cell.str "") := by
  have h10 := padRow_length r
  have htake : ((padRow r).take 4).length = 4 := by
    rw [List.length_take]
    omega
  rw [← padRow_getD r j]
  have hlen9 : ((padRow r).take 4 ++ vals.map Cell.nat).length = 9 := by
    rw [List.length_append, htake, List.length_map, h5]
  unfold applyRowUpdate
  rw [List.getD_eq_getElem?_getD, List.getD_eq_getElem?_getD]
  rcases hj with hj | hj
  · rw [List.getElem?_append, if_pos (by rw [hlen9]; omega),
      List.getElem?_append, if_pos (by rw [htake]; omega),
      List.getElem?_take, if_pos (by omega)]
  · rw [List.getElem?_append, if_neg (by rw [hlen9]; omega), hlen9,
      List.getElem?_drop, show 9 + (j - 9) = j from by omega]

theorem applyRowUpdate_metrics {vals : List Nat} {r : Row}
    (h5 : vals.length = 5) :
    ((applyRowUpdate vals r).drop 4).take 5 = vals.map Cell.nat := by
  have h10 := padRow_length r
  have htake : ((padRow r).take 4).length = 4 := by
    rw [List.length_take]
    omega
  have hmap : (vals.map Cell.nat).length = 5 := by simp [h5]
  unfold applyRowUpdate
  rw [List.append_assoc, List.drop_left' htake, List.take_left' hmap]

theorem applyRowUpdate_permalink {vals : List Nat} {r : Row}
    (h5 : vals.length = 5) :
    permalinkCell (applyRowUpdate vals r) = permalinkCell r :=
  applyRowUpdate_getD_out h5 (Or.inr (by omega))

theorem applyUpdate_cons (vals : List Nat) (pos : Nat) (r : Row)
    (rest : List Row) :
    applyUpdate vals pos (r :: rest)
      = if pos = 1 then applyRowUpdate vals r :: rest
        else if pos = 0 then r :: rest
        else r :: applyUpdate vals (pos - 1) rest := by
  simp [applyUpdate]

theorem applyUpdate_length (vals : List Nat) (pos : Nat) (sheet : List Row) :
    (applyUpdate vals pos sheet).length = sheet.length := by
  induction sheet generalizing pos with
  | nil => rfl
  | cons r rest ih =>
    rw [applyUpdate_cons]
    by_cases h1 : pos = 1
    · simp [h1]
    · by_cases h0 : pos = 0
      · simp [h1, h0]
      · simp [h1, h0, ih]

theorem applyUpdate_getD_ne {vals : List Nat} {pos : Nat} {sheet : List Row}
    {j : Nat} (h : j + 1 ≠ pos) :
    (applyUpdate vals pos sheet).getD j [] = sheet.getD j [] := by
  induction sheet generalizing pos j with
  | nil => rfl
  | cons r rest ih =>
    rw [applyUpdate_cons]
    by_cases h1 : pos = 1
    · subst h1
      match j with
      | 0 => exact absurd rfl h
      | j + 1 => simp [List.getD_cons_succ]
    · by_cases h0 : pos = 0
      · simp [h1, h0]
      · rw [if_neg h1, if_neg h0]
        match j with
        | 0 => simp
        | j + 1 =>
          rw [List.getD_cons_succ, List.getD_cons_succ]
          exact ih (by omega)

theorem applyUpdate_getD_eq {vals : List Nat} {pos : Nat} {sheet : List Row}
    {j : Nat} (h : j + 1 = pos) (hj : j < sheet.length) :
    (applyUpdate vals pos sheet).getD j []
      = applyRowUpdate vals (sheet.getD j []) := by
  induction sheet generalizing pos j with
  | nil => cases hj
  | cons r rest ih =>
    rw [applyUpdate_cons]
    match j with
    | 0 =>
      subst h
      simp
    | j + 1 =>
      rw [if_neg (by omega), if_neg (by omega), List.getD_cons_succ,
        List.getD_cons_succ]
      rw [show pos - 1 = j + 1 from by omega] at *
      exact ih rfl (by simpa using Nat.lt_of_succ_lt_succ hj)

theorem applyUpdates_length (us : List (Nat × List Nat)) (sheet : List Row) :
    (applyUpdates us sheet).length = sheet.length := by
  induction us generalizing sheet with
  | nil => rfl
  | cons u us ih =>
    show (applyUpdates us (applyUpdate u.2 u.1 sheet)).length = _
    rw [ih, applyUpdate_length]

theorem applyUpdates_getD_ne {us : List (Nat × List Nat)} {sheet : List Row}
    {j : Nat} (h : ∀ u ∈ us, u.1 ≠ j + 1) :
    (applyUpdates us sheet).getD j [] = sheet.getD j [] := by
  induction us generalizing sheet with
  | nil => rfl
  | cons u us ih =>
    show (applyUpdates us (applyUpdate u.2 u.1 sheet)).getD j [] = _
    rw [ih (fun v hv => h v (List.mem_cons_of_mem u hv)),
      applyUpdate_getD_ne]
    intro hc
    exact h u (List.mem_cons_self u us) hc.symm

theorem applyUpdates_permalink {us : List (Nat × List Nat)} {sheet : List Row}
    (h5 : ∀ u ∈ us, u.2.length = 5) (j : Nat) :
    permalinkCell ((applyUpdates us sheet).getD j [])
      = permalinkCell (sheet.getD j []) := by
  induction us generalizing sheet with
  | nil => rfl
  | cons u us ih =>
    show permalinkCell ((applyUpdates us (applyUpdate u.2 u.1 sheet)).getD j [])
      = _
    rw [ih (fun v hv => h5 v (List.mem_cons_of_mem u hv))]
    by_cases hj : j + 1 = u.1
    · by_cases hlt : j < sheet.length
      · rw [applyUpdate_getD_eq hj hlt]
        exact applyRowUpdate_permalink (h5 u (List.mem_cons_self u us))
      · have h1 : (applyUpdate u.2 u.1 sheet).getD j [] = [] := by
          rw [List.getD_eq_getElem?_getD, List.getElem?_eq_none]
          · rfl
          · rw [applyUpdate_length]
            omega
        have h2 : sheet.getD j [] = ([] : Row) := by
          rw [List.getD_eq_getElem?_getD, List.getElem?_eq_none (by omega)]
          rfl
        rw [h1, h2]
    · rw [applyUpdate_getD_ne hj]

theorem metricCells_applyUpdate_ne {vals : List Nat} {pos r : Nat}
    {sheet : List Row} (hne : pos ≠ r) (hr : 1 ≤ r) :
    metricCells (applyUpdate vals pos sheet) r = metricCells sheet r := by
  unfold metricCells
  rw [applyUpdate_getD_ne (by omega)]

theorem metricCells_applyUpdates_ne {us : List (Nat × List Nat)} {r : Nat}
    {sheet : List Row} (hne : ∀ u ∈ us, u.1 ≠ r) (hr : 1 ≤ r) :
    metricCells (applyUpdates us sheet) r = metricCells sheet r := by
  induction us generalizing sheet with
  | nil => rfl
  | cons u us ih =>
    show metricCells (applyUpdates us (applyUpdate u.2 u.1 sheet)) r = _
    rw [ih (fun v hv => hne v (List.mem_cons_of_mem u hv)),
      metricCells_applyUpdate_ne (hne u (List.mem_cons_self u us)) hr]

theorem metricCells_applyUpdate_eq {vals : List Nat} {r : Nat}
    {sheet : List Row} (h5 : vals.length = 5) (hr : 1 ≤ r)
    (hlt : r - 1 < sheet.length) :
    metricCells (applyUpdate vals r sheet) r = vals.map Cell.nat := by
  unfold metricCells
  rw [applyUpdate_getD_eq (by omega) hlt, applyRowUpdate_metrics h5]

/-- Executing a list of range updates whose row positions are pairwise
distinct leaves, at each updated position, exactly the values of its
update. -/
theorem metricCells_applyUpdates_mem {us : List (Nat × List Nat)}
    {r : Nat} {v : List Nat} {sheet : List Row}
    (hpw : us.Pairwise (fun a b => a.1 ≠ b.1)) (hmem : (r, v) ∈ us)
    (h5 : v.length = 5) (hr : 1 ≤ r) (hlt : r - 1 < sheet.length) :
    metricCells (applyUpdates us sheet) r = v.map Cell.nat := by
  induction us generalizing sheet with
  | nil => cases hmem
  | cons u us ih =>
    rcases List.mem_cons.mp hmem with hu | hu
    · subst hu
      show metricCells (applyUpdates us (applyUpdate v r sheet)) r = _
      rw [metricCells_applyUpdates_ne
        (fun w hw => ((List.pairwise_cons.mp hpw).1 w hw).symm) hr]
      exact metricCells_applyUpdate_eq h5 hr hlt
    · show metricCells (applyUpdates us (applyUpdate u.2 u.1 sheet)) r = _
      exact ih (List.pairwise_cons.mp hpw).2 hu
        (by rw [applyUpdate_length]; exact hlt)

/-! ### The six metric counters -/

theorem metricField_setMetric_eq {p : Post} {n : String} (v : Nat)
    (hn : n ∈ sixMetricNames) :
    metricField (setMetric p (some n) v) n = some v := by
  simp only [sixMetricNames, List.mem_cons, List.mem_singleton,
    List.not_mem_nil, or_false] at hn
  rcases hn with h | h | h | h | h | h <;> subst h <;>
    simp [setMetric, metricField]

theorem metricField_setMetric_ne {p : Post} {nm : Option String}
    {n : String} (v : Nat) (hn : n ∈ sixMetricNames) (hne : nm ≠ some n) :
    metricField (setMetric p nm v) n = metricField p n := by
  simp only [sixMetricNames, List.mem_cons, List.mem_singleton,
    List.not_mem_nil, or_false] at hn
  rcases hn with h | h | h | h | h | h <;> subst h <;>
    (unfold setMetric; split <;> simp_all [metricField])

/-- Folding entries whose every binding of the name `n` carries an
empty value list leaves the counter `n` reading as 0. -/
theorem enrichWith_field_default {entries : List MetricEntry} {p : Post}
    {n : String} (hn : n ∈ sixMetricNames)
    (hval : ∀ e ∈ entries, e.name = some n → e.values = [])
    (h0 : (metricField p n).getD 0 = 0) :
    (metricField (enrichWith entries p) n).getD 0 = 0 := by
  induction entries generalizing p with
  | nil => exact h0
  | cons e es ih =>
    show (metricField (enrichWith es (applyEntry p e)) n).getD 0 = 0
    refine ih (fun f hf => hval f (List.mem_cons_of_mem e hf)) ?_
    by_cases hname : e.name = some n
    · have hv : e.values = [] := hval e (List.mem_cons_self e es) hname
      have hev : entryValue e = 0 := by simp [entryValue, hv]
      unfold applyEntry
      rw [hname, hev, metricField_setMetric_eq 0 hn]
      rfl
    · unfold applyEntry
      rw [metricField_setMetric_ne _ hn hname]
      exact h0

theorem metricField_views (p : Post) : metricField p "views" = p.views := rfl

theorem metricField_likes (p : Post) : metricField p "likes" = p.likes := rfl

theorem metricField_replies (p : Post) :
    metricField p "replies" = p.replies := rfl

theorem metricField_reposts (p : Post) :
    metricField p "reposts" = p.reposts := rfl

theorem metricField_quotes (p : Post) :
    metricField p "quotes" = p.quotes := rfl

theorem metricField_shares (p : Post) :
    metricField p "shares" = p.shares := rfl

/-! ### The timestamp ordering used by the sort -/

theorem char_eq_of_toNat_eq {a b : Char} (h : a.toNat = b.toNat) : a = b := by
  have hv : a.val.toNat = b.val.toNat := h
  have hval : a.val = b.val := by
    cases a with
    | mk v1 hv1 =>
      cases b with
      | mk v2 hv2 =>
        simp only at hv ⊢
        exact UInt32.toNat.inj hv
  exact Char.eq_of_val_eq hval

theorem lexLe_total (a b : List Char) : lexLe a b = true ∨ lexLe b a = true := by
  induction a generalizing b with
  | nil => exact Or.inl rfl
  | cons x xs ih =>
    cases b with
    | nil => exact Or.inr rfl
    | cons y ys =>
      by_cases hxy : x = y
      · subst hxy
        rcases ih ys with h | h
        · exact Or.inl (by simp [lexLe, h])
        · exact Or.inr (by simp [lexLe, h])
      · by_cases hlt : x.toNat < y.toNat
        · exact Or.inl (by simp [lexLe, hxy, hlt])
        · have hyx : ¬ y = x := fun hc => hxy hc.symm
          have hgt : y.toNat < x.toNat := by
            rcases Nat.lt_trichotomy x.toNat y.toNat with h | h | h
            · exact absurd h hlt
            · exact absurd (char_eq_of_toNat_eq h) hxy
            · exact h
          exact Or.inr (by simp [lexLe, hyx, hgt])

theorem lexLe_trans {a b c : List Char} (h1 : lexLe a b = true)
    (h2 : lexLe b c = true) : lexLe a c = true := by
  induction a generalizing b c with
  | nil => rfl
  | cons x xs ih =>
    cases b with
    | nil => simp [lexLe] at h1
    | cons y ys =>
      cases c with
      | nil => simp [lexLe] at h2
      | cons z zs =>
        by_cases hxy : x = y <;> by_cases hyz : y = z
        · subst hxy
          subst hyz
          simp only [lexLe, if_pos rfl] at h1 h2 ⊢
          exact ih h1 h2
        · subst hxy
          simp only [lexLe, if_neg hyz, decide_eq_true_eq] at h2
          simp [lexLe, hyz, h2]
        · subst hyz
          simp only [lexLe, if_neg hxy, decide_eq_true_eq] at h1
          simp [lexLe, hxy, h1]
        · simp only [lexLe, if_neg hxy, decide_eq_true_eq] at h1
          simp only [lexLe, if_neg hyz, decide_eq_true_eq] at h2
          have hxz : ¬ x = z := by
            intro hc
            subst hc
            omega
          simp [lexLe, hxz]
          omega

theorem lexLe_antisymm {a b : List Char} (h1 : lexLe a b = true)
    (h2 : lexLe b a = true) : a = b := by
  induction a generalizing b with
  | nil =>
    cases b with
    | nil => rfl
    | cons y ys => simp [lexLe] at h2
  | cons x xs ih =>
    cases b with
    | nil => simp [lexLe] at h1
    | cons y ys =>
      by_cases hxy : x = y
      · subst hxy
        simp only [lexLe, if_pos rfl] at h1 h2
        rw [ih h1 h2]
      · have hyx : ¬ y = x := fun hc => hxy hc.symm
        simp only [lexLe, if_neg hxy, decide_eq_true_eq] at h1
        simp only [lexLe, if_neg hyx, decide_eq_true_eq] at h2
        omega

theorem tsLe_total (a b : Post) : tsLe a b = true ∨ tsLe b a = true :=
  lexLe_total (tsKey a).data (tsKey b).data

theorem tsLe_trans {a b c : Post} (h1 : tsLe a b = true)
    (h2 : tsLe b c = true) : tsLe a c = true :=
  lexLe_trans h1 h2

theorem tsLe_antisymm_key {a b : Post} (h1 : tsLe a b = true)
    (h2 : tsLe b a = true) : tsKey a = tsKey b :=
  String.ext (lexLe_antisymm h1 h2)

theorem sortPosts_perm (stats : List Post) : (sortPosts stats).Perm stats :=
  List.perm_insertionSort _ stats

theorem sortPosts_sorted (stats : List Post) :
    List.Pairwise (fun a b => tsLe a b = true) (sortPosts stats) := by
  haveI : IsTotal Post (fun a b => tsLe a b = true) := ⟨tsLe_total⟩
  haveI : IsTrans Post (fun a b => tsLe a b = true) :=
    ⟨fun _ _ _ => tsLe_trans⟩
  exact List.sorted_insertionSort _ stats

/-- Two permutations of each other with pairwise-distinct timestamp
keys sort identically: the reconciler's processing order does not
depend on the input order. -/
theorem sortPosts_eq_of_perm {stats stats' : List Post}
    (hperm : stats.Perm stats') (hnd : (stats.map tsKey).Nodup) :
    sortPosts stats = sortPosts stats' := by
  haveI : IsAntisymm Post
      (fun a b => tsLe a b = true ∧ tsKey a ≠ tsKey b) :=
    ⟨fun a b h1 h2 => absurd (tsLe_antisymm_key h1.1 h2.1) h1.2⟩
  have hkey : ∀ l : List Post, (l.map tsKey).Nodup →
      List.Pairwise (fun a b => tsKey a ≠ tsKey b) l := fun l h =>
    List.pairwise_map.mp h
  have hnd' : (stats'.map tsKey).Nodup :=
    ((hperm.map tsKey).nodup_iff).mp hnd
  have hs1 : List.Sorted (fun a b => tsLe a b = true ∧ tsKey a ≠ tsKey b)
      (sortPosts stats) :=
    (sortPosts_sorted stats).and
      (hkey _ (((sortPosts_perm stats).map tsKey).nodup_iff.mpr hnd))
  have hs2 : List.Sorted (fun a b => tsLe a b = true ∧ tsKey a ≠ tsKey b)
      (sortPosts stats') :=
    (sortPosts_sorted stats').and
      (hkey _ (((sortPosts_perm stats').map tsKey).nodup_iff.mpr hnd'))
  exact List.eq_of_perm_of_sorted
    (((sortPosts_perm stats).trans hperm).trans (sortPosts_perm stats').symm)
    hs1 hs2

theorem perm_any_eq {l1 l2 : List Post} (f : Post → Bool) (h : l1.Perm l2) :
    l1.any f = l2.any f := by
  cases h1 : l1.any f <;> cases h2 : l2.any f <;> try rfl
  · rw [List.any_eq_false] at h1
    rw [List.any_eq_true] at h2
    obtain ⟨a, ha, hfa⟩ := h2
    exact absurd hfa (by simpa using h1 a (h.mem_iff.mpr ha))
  · rw [List.any_eq_false] at h2
    rw [List.any_eq_true] at h1
    obtain ⟨a, ha, hfa⟩ := h1
    exact absurd hfa (by simpa using h2 a (h.mem_iff.mp ha))

/-! ### Claims C9, C7, C6, C8 -/

/-- C9: the fetcher's returned sequence contains exactly the posts of
the API response whose media kind is not `REPOST_FACADE`: it is a
subsequence of the response, every surviving post is a non-facade, every
non-facade post of the response survives, and occurrence counts are
preserved for non-facades and zero for facades — so facade reposts are
excluded before the enricher and reconciler ever see them. -/
theorem fetch_filters_repost_facade (resp : FeedResponse) :
    (fetch_threads_posts resp).Sublist (resp.data.getD [])
      ∧ (∀ p ∈ fetch_threads_posts resp, p.media_type ≠ some "REPOST_FACADE")
      ∧ (∀ p ∈ resp.data.getD [],
          p.media_type ≠ some "REPOST_FACADE" → p ∈ fetch_threads_posts resp)
      ∧ ∀ p : Post,
          (fetch_threads_posts resp).count p
            = if p.media_type = some "REPOST_FACADE" then 0
              else (resp.data.getD []).count p := by
  refine ⟨List.filter_sublist _, ?_, ?_, ?_⟩
  · intro p hp
    have := List.of_mem_filter hp
    simpa using this
  · intro p hp hmt
    exact List.mem_filter.mpr ⟨hp, by simpa using hmt⟩
  · intro p
    by_cases h : p.media_type = some "REPOST_FACADE"
    · rw [if_pos h, List.count_eq_zero]
      intro hc
      have := List.of_mem_filter hc
      simp [h] at this
    · rw [if_neg h]
      exact List.count_filter (by simpa using h)

/-- C7: a post whose identifier is absent (or falsy, i.e. empty) is
skipped by the enricher: it comes back unchanged, no insights request
is issued for it, and the surrounding posts are enriched exactly as
they would be without it — the batch is never aborted. -/
theorem enricher_skips_missing_id (insights : String → List MetricEntry)
    (l₁ l₂ : List Post) (p : Post)
    (hid : p.id = none ∨ p.id = some "") :
    refine_posts_stats insights (l₁ ++ p :: l₂)
        = refine_posts_stats insights l₁ ++ p :: refine_posts_stats insights l₂
      ∧ refineRequests (l₁ ++ p :: l₂) = refineRequests (l₁ ++ l₂) := by
  have hskip : refineOne insights p = p := by
    rcases hid with h | h <;> simp [refineOne, h]
  have hreq : (match p.id with
      | none => none
      | some mid => if mid = "" then none else some mid)
        = (none : Option String) := by
    rcases hid with h | h <;> simp [h]
  constructor
  · simp [refine_posts_stats, hskip]
  · simp only [refineRequests, List.filterMap_append, List.filterMap_cons]
    rw [hreq]

/-- C7 witness: a concrete batch where the middle post has no id. -/
theorem enricher_skips_missing_id_witness :
    refine_posts_stats (fun _ => [⟨some "views", [⟨some 7⟩]⟩])
        ([{ id := some "a" }] ++ ({ text := some "no id" } : Post)
          :: [{ id := some "b" }])
      = refine_posts_stats (fun _ => [⟨some "views", [⟨some 7⟩]⟩])
          [{ id := some "a" }]
        ++ ({ text := some "no id" } : Post)
          :: refine_posts_stats (fun _ => [⟨some "views", [⟨some 7⟩]⟩])
              [{ id := some "b" }]
      ∧ refineRequests ([{ id := some "a" }]
          ++ ({ text := some "no id" } : Post) :: [{ id := some "b" }])
        = refineRequests ([{ id := some "a" }] ++ [{ id := some "b" }]) :=
  enricher_skips_missing_id (fun _ => [⟨some "views", [⟨some 7⟩]⟩])
    [{ id := some "a" }] [{ id := some "b" }] { text := some "no id" }
    (Or.inl rfl)

/-- C6: after enrichment, each of the six counters that is absent from
the metrics response, or whose entries all carry an empty value list,
reads as 0; and a post none of whose response entries carries a metric
name yields `[0, 0, 0, 0, 0]` as its emitted metric values (all six
counters zero, reposts and quotes combined). -/
theorem enricher_defaults_absent_metrics
    (insights : String → List MetricEntry) (p : Post) (mid : String)
    (hid : p.id = some mid) (hmid : mid ≠ "")
    (hinit : ∀ n ∈ sixMetricNames, metricField p n = none) :
    (∀ n ∈ sixMetricNames,
        (∀ e ∈ insights mid, e.name = some n → e.values = []) →
        (metricField (refineOne insights p) n).getD 0 = 0)
      ∧ ((∀ e ∈ insights mid, ∀ n ∈ sixMetricNames, e.name ≠ some n) →
        metricsValues (refineOne insights p) = [0, 0, 0, 0, 0]) := by
  have hro : refineOne insights p = enrichWith (insights mid) p := by
    simp [refineOne, hid, hmid]
  constructor
  · intro n hn hval
    rw [hro]
    exact enrichWith_field_default hn hval (by rw [hinit n hn]; rfl)
  · intro habs
    have hz : ∀ n ∈ sixMetricNames,
        (metricField (refineOne insights p) n).getD 0 = 0 := by
      intro n hn
      rw [hro]
      refine enrichWith_field_default hn
        (fun e he hname => absurd hname (habs e he n hn)) ?_
      rw [hinit n hn]
      rfl
    have hv := hz "views" (by simp [sixMetricNames])
    have hl := hz "likes" (by simp [sixMetricNames])
    have hr := hz "replies" (by simp [sixMetricNames])
    have hrp := hz "reposts" (by simp [sixMetricNames])
    have hq := hz "quotes" (by simp [sixMetricNames])
    have hsh := hz "shares" (by simp [sixMetricNames])
    rw [metricField_views] at hv
    rw [metricField_likes] at hl
    rw [metricField_replies] at hr
    rw [metricField_reposts] at hrp
    rw [metricField_quotes] at hq
    rw [metricField_shares] at hsh
    simp [metricsValues, hv, hl, hr, hrp, hq, hsh]

/-- C6 witness: a post whose insights response has a views entry with
an empty value list and no other metric entries. -/
theorem enricher_defaults_absent_metrics_witness :
    (({ id := some "m1" } : Post).id = some "m1"
      ∧ "m1" ≠ ""
      ∧ ∀ n ∈ sixMetricNames, metricField { id := some "m1" } n = none)
      ∧ ((∀ n ∈ sixMetricNames,
          (∀ e ∈ (fun (_ : String) => ([] : List MetricEntry)) "m1",
            e.name = some n → e.values = []) →
          (metricField (refineOne (fun _ => []) { id := some "m1" }) n).getD 0
            = 0)
        ∧ ((∀ e ∈ (fun (_ : String) => ([] : List MetricEntry)) "m1",
            ∀ n ∈ sixMetricNames, e.name ≠ some n) →
          metricsValues (refineOne (fun _ => []) { id := some "m1" })
            = [0, 0, 0, 0, 0])) :=
  ⟨⟨rfl, by decide, by decide⟩,
    enricher_defaults_absent_metrics (fun _ => []) { id := some "m1" } "m1"
      rfl (by decide) (by decide)⟩

/-- C8: a post whose timestamp is missing, or whose timestamp string
does not parse, makes the whole reconcile run propagate an error: no
output (hence no update and no append) is produced. -/
theorem reconcile_fails_on_bad_timestamp {stats : List Post}
    (sheet : List Row) {p : Post} (hp : p ∈ stats)
    (hbad : p.timestamp = none
      ∨ ∃ s, p.timestamp = some s ∧ formatTimestamp s = none) :
    ∃ e, reconcile stats sheet = Except.error e := by
  by_cases hany : stats.any (fun q => q.timestamp.isNone)
  · exact ⟨ReconcileError.missingTimestamp,
      by unfold reconcile; rw [if_pos hany]⟩
  · rcases hbad with hnone | ⟨s, hs, hfmt⟩
    · exact absurd (List.any_eq_true.mpr ⟨p, hp, by simp [hnone]⟩) hany
    · unfold reconcile
      rw [if_neg hany]
      have hfmt' : formatTimestamp (tsKey p) = none := by
        simp [tsKey, hs, hfmt]
      obtain ⟨e, he⟩ := @foldlM_step_error (reconMap sheet) (sortPosts stats) p
        ((List.perm_insertionSort _ stats).mem_iff.mpr hp) hfmt'
        ⟨startIdx sheet, [], []⟩
      rw [he]
      exact ⟨e, rfl⟩

/-! ### Claims C2, C5, C10 -/

theorem length_filterMap_eq_countP {α β : Type} (f : α → Option β)
    (l : List α) :
    (l.filterMap f).length = l.countP (fun a => (f a).isSome) := by
  induction l with
  | nil => rfl
  | cons a l ih =>
    rw [List.filterMap_cons, List.countP_cons]
    cases hf : f a with
    | none => simp [hf, ih]
    | some b => simp [hf, ih]

theorem reconMap_mem {sheet : List Row} {kv : Cell × Nat}
    (h : kv ∈ reconMap sheet) :
    truthyCell kv.1 ∧ 2 ≤ kv.2 ∧ kv.2 - 2 < (sheet.drop 1).length
      ∧ permalinkCell ((sheet.drop 1).getD (kv.2 - 2) []) = kv.1 := by
  unfold reconMap at h
  by_cases he : (sheet.drop 1).isEmpty
  · rw [if_pos he] at h
    cases h
  · rw [if_neg he] at h
    unfold existingMap at h
    obtain ⟨h1, h2, h3, h4⟩ := existingMapFrom_mem h
    exact ⟨h1, h2, by omega, by simpa using h4⟩

/-- The reconciler's updates target row positions in the data region
(position at least 2, never the header row). -/
theorem postUpdate_pos {sheet : List Row} {p : Post} {u : Nat × List Nat}
    (h : postUpdate (reconMap sheet) p = some u) :
    u.2 = metricsValues p ∧ 2 ≤ u.1 := by
  unfold postUpdate at h
  cases hl : lookupLast (reconMap sheet) (Cell.str (postPermalink p)) with
  | none => rw [hl] at h; cases h
  | some r =>
    rw [hl] at h
    cases h
    exact ⟨rfl, (reconMap_mem (lookupLast_mem hl)).2.1⟩

/-- A range update leaves every cell outside its row or outside the
metric columns (E..I, indices 4..8) unchanged. -/
theorem cellAt_applyUpdate_frame {vals : List Nat} {pos : Nat}
    {s : List Row} {i j : Nat} (h5 : vals.length = 5)
    (hout : i + 1 ≠ pos ∨ j < 4 ∨ 8 < j) :
    cellAt (applyUpdate vals pos s) i j = cellAt s i j := by
  unfold cellAt
  by_cases hi : i + 1 = pos
  · rcases hout with hp | hj
    · exact absurd hi hp
    · by_cases hlt : i < s.length
      · rw [applyUpdate_getD_eq hi hlt, applyRowUpdate_getD_out h5 hj]
      · have h1 : (applyUpdate vals pos s).getD i [] = [] := by
          rw [List.getD_eq_getElem?_getD, List.getElem?_eq_none]
          · rfl
          · rw [applyUpdate_length]
            omega
        have h2 : s.getD i [] = ([] : Row) := by
          rw [List.getD_eq_getElem?_getD, List.getElem?_eq_none (by omega)]
          rfl
        rw [h1, h2]
  · rw [applyUpdate_getD_ne hi]

/-- C2: every update a run emits is a bounded-range write: it carries
exactly five values (the metrics span E..I), targets a data row
(position at least 2, so never the header), and executing it changes no
cell outside columns 4..8 of the targeted row — Idx, Date, Text, Topic
and Permalink of that row, and every other row, are untouched. -/
theorem update_writes_only_metrics_span {stats : List Post}
    {sheet : List Row} {out : Output}
    (hok : reconcile stats sheet = Except.ok out) :
    ∀ u ∈ out.updates,
      u.2.length = 5 ∧ 2 ≤ u.1
        ∧ ∀ (s : List Row) (i j : Nat), i + 1 ≠ u.1 ∨ j < 4 ∨ 8 < j →
            cellAt (applyUpdate u.2 u.1 s) i j = cellAt s i j := by
  intro u hu
  obtain ⟨_, h2, _⟩ := reconcile_ok_char hok
  rw [h2, List.mem_filterMap] at hu
  obtain ⟨p, _, hpu⟩ := hu
  obtain ⟨hvals, hpos⟩ := postUpdate_pos hpu
  refine ⟨by rw [hvals]; rfl, hpos, ?_⟩
  intro s i j hout
  exact cellAt_applyUpdate_frame (by rw [hvals]; rfl) hout

/-- C2 witness: the emitted update of the matched row leaves the Topic
cell (column D), the Permalink cell (column J) and the header row's
Views cell untouched. -/
theorem update_writes_only_metrics_span_witness :
    reconcile [wPostC2] wSheetC2 = Except.ok wOutC2
      ∧ cellAt (applyUpdate [50, 0, 0, 0, 0] 2 wSheetC2) 1 3
          = cellAt wSheetC2 1 3
      ∧ cellAt (applyUpdate [50, 0, 0, 0, 0] 2 wSheetC2) 1 9
          = cellAt wSheetC2 1 9
      ∧ cellAt (applyUpdate [50, 0, 0, 0, 0] 2 wSheetC2) 0 4
          = cellAt wSheetC2 0 4 :=
  ⟨rfl,
    (@update_writes_only_metrics_span [wPostC2] wSheetC2 wOutC2 rfl
      (2, [50, 0, 0, 0, 0])
      (by decide)).2.2 wSheetC2 1 3 (Or.inr (Or.inl (by omega))),
    (@update_writes_only_metrics_span [wPostC2] wSheetC2 wOutC2 rfl
      (2, [50, 0, 0, 0, 0])
      (by decide)).2.2 wSheetC2 1 9 (Or.inr (Or.inr (by omega))),
    (@update_writes_only_metrics_span [wPostC2] wSheetC2 wOutC2 rfl
      (2, [50, 0, 0, 0, 0])
      (by decide)).2.2 wSheetC2 0 4 (Or.inl (by omega))⟩

/-- C5: on a sheet with zero data rows every run writes the header row
first, emits no update, and appends every input post, with indices
1, 2, ... assigned in ascending timestamp order. -/
theorem reconcile_empty_sheet {stats : List Post} {sheet : List Row}
    {out : Output} (hempty : sheet.drop 1 = [])
    (hok : reconcile stats sheet = Except.ok out) :
    out.headerWritten = true
      ∧ out.updates = []
      ∧ applyOutput sheet out = (sheet ++ [header]) ++ out.appends
      ∧ out.appends.length = stats.length
      ∧ out.appends.map (fun r => r.getD 0 (Cell.str ""))
          = (List.range' 1 stats.length).map Cell.nat
      ∧ ∃ qs : List Post, qs.Perm stats
          ∧ List.Pairwise (fun a b => tsLe a b = true) qs
          ∧ out.appends.map permalinkCell
              = qs.map (fun p => Cell.str (postPermalink p)) := by
  obtain ⟨h1, h2, h3⟩ := reconcile_ok_char hok
  have hmap : reconMap sheet = [] := by simp [reconMap, hempty]
  have hstart : startIdx sheet = 1 := by simp [startIdx, hempty]
  have hnomatch : ∀ p, matchedB (reconMap sheet) p = false := by
    intro p
    rw [hmap]
    rfl
  have hcount : (sortPosts stats).countP
      (fun p => !(matchedB (reconMap sheet) p)) = stats.length := by
    rw [List.Perm.countP_eq _ (sortPosts_perm stats)]
    rw [List.countP_eq_length_filter]
    rw [List.filter_eq_self.mpr (fun p _ => by rw [hnomatch p]; rfl)]
  have hupd : out.updates = [] := by
    rw [h2]
    rw [List.filterMap_eq_nil]
    intro p _
    unfold postUpdate
    have := hnomatch p
    unfold matchedB at this
    cases hl : lookupLast (reconMap sheet) (Cell.str (postPermalink p)) with
    | none => rfl
    | some r => rw [hl] at this; cases this
  have hhw : out.headerWritten = true := by
    rw [h1, hempty]
    rfl
  refine ⟨hhw, hupd, ?_, ?_, ?_, ?_⟩
  · unfold applyOutput
    rw [hhw, hupd]
    rfl
  · rw [h3, appendRows_length, hcount]
  · rw [h3, appendRows_idx, hcount, hstart]
  · refine ⟨sortPosts stats, sortPosts_perm stats, sortPosts_sorted stats, ?_⟩
    rw [h3, appendRows_permalinks]
    rw [List.filter_eq_self.mpr (fun p _ => by rw [hnomatch p]; rfl)]

/-- C5 witness: the spec's scenario — empty sheet, posts given in
reverse order; the header is written, P1 becomes index 1, P2 index 2. -/
theorem reconcile_empty_sheet_witness :
    (([] : List Row).drop 1 = []
        ∧ reconcile [wPostC5b, wPostC5a] [] = Except.ok wOutC5)
      ∧ wOutC5.headerWritten = true
      ∧ wOutC5.updates = []
      ∧ applyOutput [] wOutC5 = (([] : List Row) ++ [header]) ++ wOutC5.appends
      ∧ wOutC5.appends.length = [wPostC5b, wPostC5a].length
      ∧ wOutC5.appends.map (fun r => r.getD 0 (Cell.str ""))
          = (List.range' 1 [wPostC5b, wPostC5a].length).map Cell.nat
      ∧ ∃ qs : List Post, qs.Perm [wPostC5b, wPostC5a]
          ∧ List.Pairwise (fun a b => tsLe a b = true) qs
          ∧ wOutC5.appends.map permalinkCell
              = qs.map (fun p => Cell.str (postPermalink p)) := by
  have h := @reconcile_empty_sheet [wPostC5b, wPostC5a] [] wOutC5 rfl rfl
  exact ⟨⟨rfl, rfl⟩, h.1, h.2.1, h.2.2.1, h.2.2.2.1, h.2.2.2.2.1,
    h.2.2.2.2.2⟩

/-- C10: a post whose permalink is missing or empty can never match —
rows with an empty Permalink cell are excluded from the lookup map — so
every update the run emits comes from a matched (nonempty-permalink)
post, and the run appends exactly one fresh row with an empty Permalink
cell per such post, every time it runs. -/
theorem empty_permalink_always_appends {stats : List Post}
    {sheet : List Row} {out : Output} {p : Post}
    (hok : reconcile stats sheet = Except.ok out)
    (hp : p ∈ stats) (hperm : postPermalink p = "") :
    matchedB (reconMap sheet) p = false
      ∧ out.updates.length
          = (stats.filter (fun q => matchedB (reconMap sheet) q)).length
      ∧ out.appends.countP (fun r => permalinkCell r = Cell.str "")
          = stats.countP (fun q => postPermalink q = "")
      ∧ 0 < out.appends.countP
          (fun r => permalinkCell r = Cell.str "") := by
  obtain ⟨_, h2, h3⟩ := reconcile_ok_char hok
  have hempty_unmatched : ∀ q : Post, postPermalink q = "" →
      matchedB (reconMap sheet) q = false := by
    intro q hq
    unfold matchedB
    rw [hq, reconMap_lookup_empty]
    rfl
  have hm := hempty_unmatched p hperm
  have hupd : out.updates.length
      = (stats.filter (fun q => matchedB (reconMap sheet) q)).length := by
    rw [h2, length_filterMap_eq_countP,
      List.Perm.countP_eq _ (sortPosts_perm stats),
      List.countP_eq_length_filter]
    congr 1
    apply List.filter_congr
    intro q _
    unfold postUpdate matchedB
    cases lookupLast (reconMap sheet) (Cell.str (postPermalink q)) <;> rfl
  have happ : out.appends.countP (fun r => permalinkCell r = Cell.str "")
      = stats.countP (fun q => postPermalink q = "") := by
    have hmapeq := appendRows_permalinks (reconMap sheet) (startIdx sheet)
      (sortPosts stats)
    have hthis : out.appends.countP (fun r => permalinkCell r = Cell.str "")
        = ((sortPosts stats).filter
            (fun q => !(matchedB (reconMap sheet) q))).countP
          (fun q => postPermalink q = "") := by
      rw [h3]
      have hstep : List.countP (fun r => decide (permalinkCell r = Cell.str ""))
          (appendRows (reconMap sheet) (startIdx sheet) (sortPosts stats))
            = List.countP (fun c => decide (c = Cell.str ""))
              (List.map permalinkCell (appendRows (reconMap sheet)
                (startIdx sheet) (sortPosts stats))) := by
        rw [List.countP_map]
        rfl
      rw [hstep, hmapeq, List.countP_map]
      apply List.countP_congr
      intro q _
      simp [Function.comp]
    rw [hthis, List.countP_filter,
      List.Perm.countP_eq _ (sortPosts_perm stats)]
    apply List.countP_congr
    intro q _
    by_cases hq : postPermalink q = ""
    · simp [hq, hempty_unmatched q hq]
    · simp [hq]
  refine ⟨hm, hupd, happ, ?_⟩
  rw [happ, List.countP_pos]
  exact ⟨p, hp, by simpa using hperm⟩

/-- C10 witness: the permalink-less post does not match the empty
Permalink row; it is appended, not updated. -/
theorem empty_permalink_always_appends_witness :
    (wPostC10 ∈ [wPostC10] ∧ postPermalink wPostC10 = ""
        ∧ reconcile [wPostC10] wSheetC10 = Except.ok wOutC10)
      ∧ matchedB (reconMap wSheetC10) wPostC10 = false
      ∧ wOutC10.updates.length
          = ([wPostC10].filter
              (fun q => matchedB (reconMap wSheetC10) q)).length
      ∧ wOutC10.appends.countP (fun r => permalinkCell r = Cell.str "")
          = [wPostC10].countP (fun q => postPermalink q = "")
      ∧ 0 < wOutC10.appends.countP
          (fun r => permalinkCell r = Cell.str "") :=
  ⟨⟨List.mem_singleton.mpr rfl, rfl, rfl⟩,
    @empty_permalink_always_appends [wPostC10] wSheetC10 wOutC10 wPostC10
      rfl (List.mem_singleton.mpr rfl) rfl⟩

/-! ### Support for idempotence (C4) -/

theorem getD_drop (l : List Row) (n j : Nat) :
    (l.drop n).getD j [] = l.getD (n + j) [] := by
  rw [List.getD_eq_getElem?_getD, List.getD_eq_getElem?_getD,
    List.getElem?_drop]

/-- A key that no record's Permalink cell carries is absent from the
comprehension. -/
theorem lookupLast_existingMapFrom_none {rs : List Row} {key : Cell}
    {i : Nat}
    (h : ∀ j, j < rs.length → permalinkCell (rs.getD j []) ≠ key) :
    lookupLast (existingMapFrom i rs) key = none := by
  cases hl : lookupLast (existingMapFrom i rs) key with
  | none => rfl
  | some v =>
    obtain ⟨_, h2, h3, h4⟩ := existingMapFrom_mem (lookupLast_mem hl)
    exact absurd h4 (h _ (by omega))

/-- A truthy key carried by exactly one record's Permalink cell looks
up to that record's position. -/
theorem lookupLast_existingMapFrom_hit {key : Cell}
    (htr : truthyCell key = true) :
    ∀ (rs : List Row) (i k : Nat), k < rs.length →
      permalinkCell (rs.getD k []) = key →
      (∀ j, j < rs.length → j ≠ k → permalinkCell (rs.getD j []) ≠ key) →
      lookupLast (existingMapFrom i rs) key = some (i + k + 2) := by
  intro rs
  induction rs with
  | nil =>
    intro i k hk
    cases hk
  | cons row rest ih =>
    intro i k hk hkey huniq
    rw [existingMapFrom_cons]
    match k with
    | 0 =>
      have hrow : permalinkCell row = key := by simpa using hkey
      rw [if_pos (by rw [hrow]; exact htr), lookupLast_cons]
      have hnone : lookupLast (existingMapFrom (i + 1) rest) key = none := by
        apply lookupLast_existingMapFrom_none
        intro j hj
        have := huniq (j + 1) (by simp only [List.length_cons]; omega)
          (by omega)
        simpa using this
      rw [hnone, hrow]
      simp
    | k + 1 =>
      have hrest : lookupLast (existingMapFrom (i + 1) rest) key
          = some (i + 1 + k + 2) := by
        apply ih
        · simpa using hk
        · simpa using hkey
        · intro j hj hjk
          have := huniq (j + 1) (by simp only [List.length_cons]; omega)
            (by omega)
          simpa using this
      by_cases htrow : truthyCell (permalinkCell row)
      · rw [if_pos htrow, lookupLast_cons, hrest]
        exact congrArg some (by omega)
      · rw [if_neg htrow, hrest]
        exact congrArg some (by omega)

/-- In one comprehension, the position determines the key. -/
theorem existingMapFrom_pos_inj {rs : List Row} {i : Nat} {k1 k2 : Cell}
    {v : Nat} (h1 : (k1, v) ∈ existingMapFrom i rs)
    (h2 : (k2, v) ∈ existingMapFrom i rs) : k1 = k2 := by
  obtain ⟨_, _, _, e1⟩ := existingMapFrom_mem h1
  obtain ⟨_, _, _, e2⟩ := existingMapFrom_mem h2
  dsimp only at e1 e2
  rw [← e1, ← e2]

theorem reconMap_pos_inj {sheet : List Row} {k1 k2 : Cell} {v : Nat}
    (h1 : (k1, v) ∈ reconMap sheet) (h2 : (k2, v) ∈ reconMap sheet) :
    k1 = k2 := by
  unfold reconMap at h1 h2
  by_cases he : (sheet.drop 1).isEmpty
  · rw [if_pos he] at h1
    cases h1
  · rw [if_neg he] at h1 h2
    unfold existingMap at h1 h2
    exact existingMapFrom_pos_inj h1 h2

/-- With pairwise-distinct input permalinks, the emitted updates target
pairwise-distinct row positions. -/
theorem reconcile_updates_pos_nodup {stats : List Post} {sheet : List Row}
    {out : Output} (hok : reconcile stats sheet = Except.ok out)
    (hnd : (stats.map postPermalink).Nodup) :
    out.updates.Pairwise (fun a b => a.1 ≠ b.1) := by
  obtain ⟨_, h2, _⟩ := reconcile_ok_char hok
  rw [h2, List.pairwise_filterMap]
  have hpl : List.Pairwise (fun a b => postPermalink a ≠ postPermalink b)
      (sortPosts stats) := by
    apply List.pairwise_map.mp
    exact (((sortPosts_perm stats).map postPermalink).nodup_iff).mpr hnd
  refine hpl.imp_of_mem ?_
  intro p q hpmem hqmem hne u hu v hv
  simp only [Option.mem_def] at hu hv
  unfold postUpdate at hu hv
  cases hlp : lookupLast (reconMap sheet) (Cell.str (postPermalink p)) with
  | none => rw [hlp] at hu; cases hu
  | some rp =>
    rw [hlp] at hu
    cases hv2 : lookupLast (reconMap sheet)
        (Cell.str (postPermalink q)) with
    | none => rw [hv2] at hv; cases hv
    | some rq =>
      rw [hv2] at hv
      cases hu
      cases hv
      intro hc
      simp only at hc
      rw [hc] at hlp
      have hk := reconMap_pos_inj (lookupLast_mem hlp) (lookupLast_mem hv2)
      exact hne (by injection hk)

/-- When every post matches, no row is appended. -/
theorem appendRows_eq_nil {emap : List (Cell × Nat)} {ps : List Post}
    (i : Nat) (h : ∀ p ∈ ps, matchedB emap p = true) :
    appendRows emap i ps = [] := by
  induction ps generalizing i with
  | nil => rfl
  | cons p ps ih =>
    have hm := h p (List.mem_cons_self p ps)
    simp only [appendRows, hm, if_pos]
    exact ih i (fun q hq => h q (List.mem_cons_of_mem p hq))

/-- Equal mapped lists agree pointwise on their images. -/
theorem map_eq_imp_getElem {α β γ : Type} {f : α → γ} {g : β → γ}
    {l1 : List α} {l2 : List β} (h : l1.map f = l2.map g)
    (k : Nat) (hk : k < l1.length) :
    ∃ hk2 : k < l2.length, f (l1.get ⟨k, hk⟩) = g (l2.get ⟨k, hk2⟩) := by
  have hlen : l1.length = l2.length := by
    have := congrArg List.length h
    simpa using this
  refine ⟨by omega, ?_⟩
  have hpt := congrArg (fun t => t[k]?) h
  simp only [List.getElem?_map] at hpt
  rw [List.getElem?_eq_getElem (by omega : k < l1.length),
    List.getElem?_eq_getElem (by omega : k < l2.length)] at hpt
  simp only [Option.map_some', Option.some.injEq] at hpt
  exact hpt

theorem isEmpty_false_of_ne {l : List Row} (h : l ≠ []) :
    l.isEmpty = false := by
  cases l with
  | nil => exact absurd rfl h
  | cons a l => rfl

theorem getD_append_left {l1 l2 : List Row} {n : Nat} (h : n < l1.length) :
    (l1 ++ l2).getD n [] = l1.getD n [] := by
  rw [List.getD_eq_getElem?_getD, List.getD_eq_getElem?_getD,
    List.getElem?_append, if_pos h]

theorem getD_append_right {l1 l2 : List Row} {n : Nat} (h : l1.length ≤ n) :
    (l1 ++ l2).getD n [] = l2.getD (n - l1.length) [] := by
  rw [List.getD_eq_getElem?_getD, List.getD_eq_getElem?_getD,
    List.getElem?_append, if_neg (by omega)]

theorem lookup_append_entry {mB : List (Cell × Nat)} {A : List Row}
    {o : Nat} {key : Cell} {k : Nat}
    (htr : truthyCell key = true) (hk : k < A.length)
    (hkey : permalinkCell (A.getD k []) = key)
    (huniq : ∀ j, j < A.length → j ≠ k →
      permalinkCell (A.getD j []) ≠ key) :
    lookupLast (mB ++ existingMapFrom o A) key = some (o + k + 2) := by
  rw [lookupLast_append,
    lookupLast_existingMapFrom_hit htr A o k hk hkey huniq]

theorem lookup_base_entry {mB mA : List (Cell × Nat)} {key : Cell} {r : Nat}
    (hbase : lookupLast mB key = some r)
    (hnoA : lookupLast mA key = none) :
    lookupLast (mB ++ mA) key = some r := by
  rw [lookupLast_append, hnoA, hbase]

/-- Second-run lookup, unmatched case: a post that did not match in the
first run finds, in the sheet state the first run produced, exactly the
row the first run appended for it — and that row's metric cells hold
exactly the post's metric values. -/
theorem run2_lookup_unmatched {stats : List Post} {sheet : List Row}
    {out1 : Output} (hok : reconcile stats sheet = Except.ok out1)
    (hne : ∀ p ∈ stats, postPermalink p ≠ "")
    (hnd : (stats.map postPermalink).Nodup)
    {base : List Row} (hb1 : 1 ≤ base.length)
    (hbAne : base.drop 1 ++ out1.appends ≠ [])
    {p : Post} (hp : p ∈ sortPosts stats)
    (hmat : matchedB (reconMap sheet) p = false) :
    ∃ r, lookupLast (reconMap (base ++ out1.appends))
          (Cell.str (postPermalink p)) = some r
      ∧ metricCells (base ++ out1.appends) r
          = (metricsValues p).map Cell.nat := by
  obtain ⟨_, _, ha1⟩ := reconcile_ok_char hok
  set unm := (sortPosts stats).filter
    (fun q => !(matchedB (reconMap sheet) q)) with hunm
  have hA_perm : out1.appends.map permalinkCell
      = unm.map (fun q => Cell.str (postPermalink q)) := by
    rw [ha1, hunm]
    exact appendRows_permalinks _ _ _
  have hA_metr : out1.appends.map (fun r => (r.drop 4).take 5)
      = unm.map (fun q => (metricsValues q).map Cell.nat) := by
    rw [ha1, hunm]
    exact appendRows_metrics _ _ _
  have hpunm : p ∈ unm := List.mem_filter.mpr ⟨hp, by rw [hmat]; rfl⟩
  obtain ⟨k, hk, hgetp⟩ := List.mem_iff_getElem.mp hpunm
  obtain ⟨hkA, hptk⟩ := map_eq_imp_getElem hA_perm.symm k hk
  obtain ⟨hkA2, hmtk⟩ := map_eq_imp_getElem hA_metr.symm k hk
  simp only [List.get_eq_getElem] at hptk hmtk
  have hundup : (unm.map postPermalink).Nodup :=
    List.Nodup.sublist
      (List.Sublist.map postPermalink (List.filter_sublist _))
      ((((sortPosts_perm stats).map postPermalink).nodup_iff).mpr hnd)
  have hps : p ∈ stats := (sortPosts_perm stats).mem_iff.mp hp
  have htr : truthyCell (Cell.str (postPermalink p)) = true := by
    simp [truthyCell, hne p hps]
  have hbAne2 : (base.drop 1 ++ out1.appends).isEmpty = false :=
    isEmpty_false_of_ne hbAne
  have hset : reconMap (base ++ out1.appends)
      = existingMapFrom 0 (base.drop 1)
        ++ existingMapFrom (base.drop 1).length out1.appends := by
    unfold reconMap
    rw [List.drop_append_of_le_length hb1,
      if_neg (by rw [hbAne2]; exact Bool.false_ne_true)]
    unfold existingMap
    rw [existingMapFrom_append]
    simp
  refine ⟨(base.drop 1).length + k + 2, ?_, ?_⟩
  · rw [hset]
    apply lookup_append_entry htr hkA
    · rw [List.getD_eq_getElem _ _ hkA, ← hptk, hgetp]
    · intro j hj hjk hceq
      obtain ⟨hjU, hptj⟩ := map_eq_imp_getElem hA_perm j hj
      simp only [List.get_eq_getElem] at hptj
      rw [List.getD_eq_getElem _ _ hj] at hceq
      rw [hceq] at hptj
      have hplink : postPermalink unm[j] = postPermalink p := by
        have := hptj.symm
        injection this
      have hjm : j < (unm.map postPermalink).length := by simpa using hjU
      have hkm : k < (unm.map postPermalink).length := by simpa using hk
      have hmapj : (unm.map postPermalink)[j] = (unm.map postPermalink)[k] := by
        rw [List.getElem_map, List.getElem_map, hgetp, hplink]
      exact hjk ((List.Nodup.getElem_inj_iff hundup).mp hmapj)
  · unfold metricCells
    have hld : (base.drop 1).length = base.length - 1 :=
      List.length_drop 1 base
    rw [show (base.drop 1).length + k + 2 - 1 = base.length + k from
      by omega]
    rw [getD_append_right (by omega)]
    rw [show base.length + k - base.length = k from by omega]
    rw [List.getD_eq_getElem _ _ hkA2, ← hmtk, hgetp]

/-- Second-run lookup, matched case: a post that matched row `r` in the
first run still matches row `r` in the produced sheet state, and that
row's metric cells now hold exactly the post's metric values. -/
theorem run2_lookup_matched {stats : List Post} {sheet : List Row}
    {out1 : Output} (hok : reconcile stats sheet = Except.ok out1)
    (hnd : (stats.map postPermalink).Nodup)
    (hhw : out1.headerWritten = false)
    {p : Post} {r : Nat} (hp : p ∈ sortPosts stats)
    (hl1 : lookupLast (reconMap sheet)
      (Cell.str (postPermalink p)) = some r) :
    lookupLast (reconMap (applyUpdates out1.updates sheet ++ out1.appends))
        (Cell.str (postPermalink p)) = some r
      ∧ metricCells (applyUpdates out1.updates sheet ++ out1.appends) r
          = (metricsValues p).map Cell.nat := by
  obtain ⟨hw1, hu1, ha1⟩ := reconcile_ok_char hok
  set unm := (sortPosts stats).filter
    (fun q => !(matchedB (reconMap sheet) q)) with hunm
  have hrecne : (sheet.drop 1).isEmpty = false := by
    rw [hhw] at hw1
    exact hw1.symm
  have hsheet2 : 2 ≤ sheet.length := by
    have hdne : sheet.drop 1 ≠ [] := by
      intro hc
      rw [hc] at hrecne
      cases hrecne
    have hlen : (sheet.drop 1).length ≠ 0 := by
      intro hc
      exact hdne (List.length_eq_zero.mp hc)
    have := List.length_drop 1 sheet
    omega
  have hvals5 : ∀ u ∈ out1.updates, u.2.length = 5 := by
    intro u hu
    rw [hu1] at hu
    obtain ⟨q, _, hqu⟩ := List.mem_filterMap.mp hu
    rw [(postUpdate_pos hqu).1]
    rfl
  have hblen : (applyUpdates out1.updates sheet).length = sheet.length :=
    applyUpdates_length _ _
  have hb1 : 1 ≤ (applyUpdates out1.updates sheet).length := by omega
  have hcongr : existingMapFrom 0 ((applyUpdates out1.updates sheet).drop 1)
      = existingMapFrom 0 (sheet.drop 1) := by
    apply existingMapFrom_congr
    · rw [List.length_drop, List.length_drop, hblen]
    · intro j hj
      rw [getD_drop, getD_drop]
      exact applyUpdates_permalink hvals5 (1 + j)
  have hbAne : ((applyUpdates out1.updates sheet).drop 1
      ++ out1.appends).isEmpty = false := by
    apply isEmpty_false_of_ne
    intro hc
    have := congrArg List.length hc
    simp only [List.length_append, List.length_drop, hblen,
      List.length_nil] at this
    omega
  have hset : reconMap (applyUpdates out1.updates sheet ++ out1.appends)
      = existingMapFrom 0 (sheet.drop 1)
        ++ existingMapFrom ((applyUpdates out1.updates sheet).drop 1).length
            out1.appends := by
    unfold reconMap
    rw [List.drop_append_of_le_length hb1,
      if_neg (by rw [hbAne]; exact Bool.false_ne_true)]
    unfold existingMap
    rw [existingMapFrom_append, hcongr]
    simp
  have hmap1 : reconMap sheet = existingMapFrom 0 (sheet.drop 1) := by
    unfold reconMap
    rw [if_neg (by rw [hrecne]; exact Bool.false_ne_true)]
    rfl
  have hA_perm : out1.appends.map permalinkCell
      = unm.map (fun q => Cell.str (postPermalink q)) := by
    rw [ha1, hunm]
    exact appendRows_permalinks _ _ _
  have hps : p ∈ stats := (sortPosts_perm stats).mem_iff.mp hp
  have hnoA : lookupLast
      (existingMapFrom ((applyUpdates out1.updates sheet).drop 1).length
        out1.appends)
      (Cell.str (postPermalink p)) = none := by
    apply lookupLast_existingMapFrom_none
    intro j hj hceq
    obtain ⟨hjU, hptj⟩ := map_eq_imp_getElem hA_perm j hj
    simp only [List.get_eq_getElem] at hptj
    rw [List.getD_eq_getElem _ _ hj] at hceq
    rw [hceq] at hptj
    have hqmem : unm[j] ∈ unm := List.getElem_mem hjU
    have hqs : unm[j] ∈ stats :=
      (sortPosts_perm stats).mem_iff.mp (List.mem_of_mem_filter hqmem)
    have hplink : postPermalink unm[j] = postPermalink p := by
      have := hptj.symm
      injection this
    have hqp : unm[j] = p := List.inj_on_of_nodup_map hnd hqs hps hplink
    have hubad : matchedB (reconMap sheet) p = false := by
      have hfl := List.of_mem_filter hqmem
      rw [hqp] at hfl
      simpa using hfl
    unfold matchedB at hubad
    rw [hl1] at hubad
    cases hubad
  constructor
  · rw [hset]
    exact lookup_base_entry (by rw [← hmap1]; exact hl1) hnoA
  · obtain ⟨_, hr2, hrlt, _⟩ := reconMap_mem (lookupLast_mem hl1)
    have hrd : (sheet.drop 1).length = sheet.length - 1 :=
      List.length_drop 1 sheet
    have hr1 : r - 1 < sheet.length := by omega
    have hmem : (r, metricsValues p) ∈ out1.updates := by
      rw [hu1]
      exact List.mem_filterMap.mpr ⟨p, hp, by
        unfold postUpdate
        rw [hl1]
        rfl⟩
    have hmc := metricCells_applyUpdates_mem
      (reconcile_updates_pos_nodup hok hnd) hmem rfl (by omega) hr1
    unfold metricCells at hmc ⊢
    rw [getD_append_left (by omega)]
    exact hmc

/-- C4: running reconcile a second time with the same input posts, on
the sheet state produced by a successful first run, emits zero appends,
and every emitted update writes back exactly the metric values already
present in the targeted row's metric cells — a no-op.  The input posts
are assumed to satisfy the spec's data contract for fetched posts: each
has a nonempty permalink, and permalinks are pairwise distinct (the
permalink is the unique natural key). -/
theorem reconcile_idempotent {stats : List Post} {sheet : List Row}
    {out1 : Output}
    (hok : reconcile stats sheet = Except.ok out1)
    (hne : ∀ p ∈ stats, postPermalink p ≠ "")
    (hnd : (stats.map postPermalink).Nodup) :
    ∃ out2, reconcile stats (applyOutput sheet out1) = Except.ok out2
      ∧ out2.appends = []
      ∧ ∀ u ∈ out2.updates,
          metricCells (applyOutput sheet out1) u.1 = u.2.map Cell.nat := by
  obtain ⟨hw1, hu1, ha1⟩ := reconcile_ok_char hok
  have hfmt := reconcile_ok_format hok
  obtain ⟨out2, hok2⟩ := @reconcile_total stats (applyOutput sheet out1)
    (fun p hp => (hfmt p hp).1) (fun p hp => (hfmt p hp).2)
  obtain ⟨hw2, hu2, ha2⟩ := reconcile_ok_char hok2
  by_cases hstats : stats = []
  · subst hstats
    refine ⟨out2, hok2, ?_, ?_⟩
    · rw [ha2]
      rfl
    · intro u hu
      rw [hu2, show sortPosts ([] : List Post) = [] from rfl] at hu
      simp at hu
  · have hB : ∀ p ∈ sortPosts stats,
        ∃ r, lookupLast (reconMap (applyOutput sheet out1))
            (Cell.str (postPermalink p)) = some r
          ∧ metricCells (applyOutput sheet out1) r
              = (metricsValues p).map Cell.nat := by
      intro p hp
      cases hhw : out1.headerWritten with
      | false =>
        have hrecne : (sheet.drop 1).isEmpty = false := by
          rw [hhw] at hw1
          exact hw1.symm
        have hsheet2 : 2 ≤ sheet.length := by
          have hdne : sheet.drop 1 ≠ [] := by
            intro hc
            rw [hc] at hrecne
            cases hrecne
          have hlen : (sheet.drop 1).length ≠ 0 := by
            intro hc
            exact hdne (List.length_eq_zero.mp hc)
          have := List.length_drop 1 sheet
          omega
        have hS1 : applyOutput sheet out1
            = applyUpdates out1.updates sheet ++ out1.appends := by
          unfold applyOutput
          rw [hhw]
          rfl
        rw [hS1]
        cases hmat : matchedB (reconMap sheet) p with
        | false =>
          apply run2_lookup_unmatched hok hne hnd ?_ ?_ hp hmat
          · rw [applyUpdates_length]
            omega
          · intro hc
            have := congrArg List.length hc
            simp only [List.length_append, List.length_drop,
              applyUpdates_length, List.length_nil] at this
            omega
        | true =>
          unfold matchedB at hmat
          obtain ⟨r, hr⟩ := Option.isSome_iff_exists.mp hmat
          obtain ⟨hl2, hmc⟩ := run2_lookup_matched hok hnd hhw hp hr
          exact ⟨r, hl2, hmc⟩
      | true =>
        have hrect : (sheet.drop 1).isEmpty = true := by
          rw [hhw] at hw1
          exact hw1.symm
        have hemap1 : reconMap sheet = [] := by
          unfold reconMap
          rw [if_pos hrect]
        cases hmat : matchedB (reconMap sheet) p with
        | true =>
          unfold matchedB at hmat
          rw [hemap1] at hmat
          cases hmat
        | false =>
          have hupd1 : out1.updates = [] := by
            rw [hu1]
            apply List.filterMap_eq_nil.mpr
            intro q _
            unfold postUpdate
            rw [hemap1]
            rfl
          have hS1 : applyOutput sheet out1
              = (sheet ++ [header]) ++ out1.appends := by
            unfold applyOutput
            rw [hhw, hupd1]
            rfl
          have hcnt : (sortPosts stats).countP
              (fun q => !(matchedB (reconMap sheet) q))
                = (sortPosts stats).length := by
            apply List.countP_eq_length.mpr
            intro q _
            rw [hemap1]
            rfl
          have hAlen : out1.appends.length = stats.length := by
            rw [ha1, appendRows_length, hcnt]
            exact (sortPosts_perm stats).length_eq
          have hAne : out1.appends ≠ [] := by
            intro hc
            rw [hc] at hAlen
            exact hstats (List.length_eq_zero.mp hAlen.symm)
          rw [hS1]
          apply run2_lookup_unmatched hok hne hnd ?_ ?_ hp hmat
          · simp
          · intro hc
            exact hAne (List.append_eq_nil.mp hc).2
    refine ⟨out2, hok2, ?_, ?_⟩
    · rw [ha2]
      apply appendRows_eq_nil
      intro p hp
      obtain ⟨r, hr, _⟩ := hB p hp
      unfold matchedB
      rw [hr]
      rfl
    · intro u hu
      rw [hu2] at hu
      obtain ⟨p, hp, hpu⟩ := List.mem_filterMap.mp hu
      unfold postUpdate at hpu
      obtain ⟨r, hr, hmc⟩ := hB p hp
      rw [hr] at hpu
      simp only [Option.map_some', Option.some.injEq] at hpu
      rw [← hpu]
      exact hmc

/-- C4 witness: a second run over the first run's sheet state appends
nothing and emits only no-op updates. -/
theorem reconcile_idempotent_witness :
    (reconcile [wPostC4a, wPostC4b] wSheetC4 = Except.ok wOutC4
        ∧ (∀ p ∈ [wPostC4a, wPostC4b], postPermalink p ≠ "")
        ∧ ([wPostC4a, wPostC4b].map postPermalink).Nodup)
      ∧ ∃ out2, reconcile [wPostC4a, wPostC4b]
            (applyOutput wSheetC4 wOutC4) = Except.ok out2
          ∧ out2.appends = []
          ∧ ∀ u ∈ out2.updates,
              metricCells (applyOutput wSheetC4 wOutC4) u.1
                = u.2.map Cell.nat :=
  ⟨⟨rfl, by decide, by decide⟩,
    @reconcile_idempotent [wPostC4a, wPostC4b] wSheetC4 wOutC4 rfl
      (by decide) (by decide)⟩

/-! ### Claims C1 and C3 -/

/-- C1: when the input posts carry pairwise-distinct permalinks, a run
emits exactly one update per matched post (update count equals matched
post count) and exactly one append per unmatched post; no appended row
carries the permalink of any matched post, and the appended rows'
permalinks are pairwise distinct — so no two rows ever share a
permalink as a result of one run. -/
theorem reconcile_no_duplicate_rows {stats : List Post} {sheet : List Row}
    {out : Output}
    (hok : reconcile stats sheet = Except.ok out)
    (hnd : (stats.map postPermalink).Nodup) :
    out.updates.length
        = (stats.filter (fun q => matchedB (reconMap sheet) q)).length
      ∧ out.appends.length
        = (stats.filter (fun q => !(matchedB (reconMap sheet) q))).length
      ∧ (∀ r ∈ out.appends, ∀ p ∈ stats,
          matchedB (reconMap sheet) p = true →
          permalinkCell r ≠ Cell.str (postPermalink p))
      ∧ (out.appends.map permalinkCell).Nodup := by
  obtain ⟨_, h2, h3⟩ := reconcile_ok_char hok
  refine ⟨?_, ?_, ?_, ?_⟩
  · rw [h2, length_filterMap_eq_countP,
      List.Perm.countP_eq _ (sortPosts_perm stats),
      List.countP_eq_length_filter]
    congr 1
    apply List.filter_congr
    intro q _
    unfold postUpdate matchedB
    cases lookupLast (reconMap sheet) (Cell.str (postPermalink q)) <;> rfl
  · rw [h3, appendRows_length,
      List.Perm.countP_eq _ (sortPosts_perm stats),
      List.countP_eq_length_filter]
  · intro r hr p hp hmp
    rw [h3] at hr
    have hmem : permalinkCell r
        ∈ ((sortPosts stats).filter
            (fun q => !(matchedB (reconMap sheet) q))).map
          (fun q => Cell.str (postPermalink q)) := by
      rw [← appendRows_permalinks]
      exact List.mem_map_of_mem permalinkCell hr
    rw [List.mem_map] at hmem
    obtain ⟨q, hq, hqe⟩ := hmem
    have hqs : q ∈ stats :=
      (sortPosts_perm stats).mem_iff.mp (List.mem_of_mem_filter hq)
    have hqum : matchedB (reconMap sheet) q = false := by
      simpa using List.of_mem_filter hq
    intro hcontra
    rw [← hqe] at hcontra
    have hpq : postPermalink q = postPermalink p := by
      injection hcontra
    have hqp : q = p := List.inj_on_of_nodup_map hnd hqs hp hpq
    rw [hqp, hmp] at hqum
    cases hqum
  · have hinj : Function.Injective Cell.str := fun a b h => by
      injection h
    have hnd2 : ((sortPosts stats).map postPermalink).Nodup :=
      (((sortPosts_perm stats).map postPermalink).nodup_iff).mpr hnd
    have hnd3 : (((sortPosts stats).filter
        (fun q => !(matchedB (reconMap sheet) q))).map postPermalink).Nodup :=
      List.Nodup.sublist
        (List.Sublist.map postPermalink (List.filter_sublist _)) hnd2
    rw [h3, appendRows_permalinks]
    have hmm : ((sortPosts stats).filter
        (fun q => !(matchedB (reconMap sheet) q))).map
          (fun q => Cell.str (postPermalink q))
        = (((sortPosts stats).filter
            (fun q => !(matchedB (reconMap sheet) q))).map postPermalink).map
          Cell.str := by
      rw [List.map_map]
      rfl
    rw [hmm]
    exact List.Nodup.map hinj hnd3

/-- C1 witness: distinct posts P1 (matched) and P2 (new) produce one
update and one distinct-permalink append. -/
theorem reconcile_no_duplicate_rows_witness :
    (reconcile [wPostC1a, wPostC1b] wSheetC1 = Except.ok wOutC1
        ∧ ([wPostC1a, wPostC1b].map postPermalink).Nodup)
      ∧ wOutC1.updates.length
          = ([wPostC1a, wPostC1b].filter
              (fun q => matchedB (reconMap wSheetC1) q)).length
      ∧ wOutC1.appends.length
          = ([wPostC1a, wPostC1b].filter
              (fun q => !(matchedB (reconMap wSheetC1) q))).length
      ∧ (∀ r ∈ wOutC1.appends, ∀ p ∈ [wPostC1a, wPostC1b],
          matchedB (reconMap wSheetC1) p = true →
          permalinkCell r ≠ Cell.str (postPermalink p))
      ∧ (wOutC1.appends.map permalinkCell).Nodup :=
  ⟨⟨rfl, by decide⟩,
    @reconcile_no_duplicate_rows [wPostC1a, wPostC1b] wSheetC1 wOutC1
      rfl (by decide)⟩

/-- C3: a successful run processes the posts in ascending timestamp
order regardless of the input order — any permutation of the input
(under distinct timestamps) produces the identical output — and the
appended rows receive consecutive indices seeded from the current row
count, in ascending timestamp order of the new posts. -/
theorem reconcile_sorted_indices {stats stats' : List Post}
    {sheet : List Row} {out : Output}
    (hok : reconcile stats sheet = Except.ok out)
    (hperm : stats.Perm stats')
    (hnd : (stats.map tsKey).Nodup) :
    reconcile stats' sheet = Except.ok out
      ∧ out.appends.map (fun r => r.getD 0 (Cell.str ""))
          = (List.range' (startIdx sheet) out.appends.length).map Cell.nat
      ∧ ∃ qs : List Post,
          qs.Perm (stats.filter (fun p => !(matchedB (reconMap sheet) p)))
          ∧ List.Pairwise (fun a b => tsLe a b = true) qs
          ∧ out.appends.map permalinkCell
              = qs.map (fun p => Cell.str (postPermalink p)) := by
  obtain ⟨h1, h2, h3⟩ := reconcile_ok_char hok
  refine ⟨?_, ?_, ?_⟩
  · have hsort := sortPosts_eq_of_perm hperm hnd
    have hany := perm_any_eq (fun p => p.timestamp.isNone) hperm
    unfold reconcile at hok ⊢
    rw [← hany, ← hsort]
    exact hok
  · rw [h3, appendRows_idx, appendRows_length]
  · refine ⟨(sortPosts stats).filter
        (fun p => !(matchedB (reconMap sheet) p)),
      List.Perm.filter _ (sortPosts_perm stats), ?_, ?_⟩
    · exact List.Pairwise.sublist (List.filter_sublist _)
        (sortPosts_sorted stats)
    · rw [h3, appendRows_permalinks]

/-- C3 witness: posts given in reverse timestamp order; reversing the
input gives the identical output, and the appends get indices 2, 3 in
chronological order. -/
theorem reconcile_sorted_indices_witness :
    (reconcile [wPostC3a, wPostC5b] wSheetC3 = Except.ok wOutC3
        ∧ List.Perm [wPostC3a, wPostC5b] [wPostC5b, wPostC3a]
        ∧ ([wPostC3a, wPostC5b].map tsKey).Nodup)
      ∧ reconcile [wPostC5b, wPostC3a] wSheetC3 = Except.ok wOutC3
      ∧ wOutC3.appends.map (fun r => r.getD 0 (Cell.str ""))
          = (List.range' (startIdx wSheetC3) wOutC3.appends.length).map
              Cell.nat
      ∧ ∃ qs : List Post,
          qs.Perm ([wPostC3a, wPostC5b].filter
            (fun p => !(matchedB (reconMap wSheetC3) p)))
          ∧ List.Pairwise (fun a b => tsLe a b = true) qs
          ∧ wOutC3.appends.map permalinkCell
              = qs.map (fun p => Cell.str (postPermalink p)) :=
  ⟨⟨rfl, List.Perm.swap wPostC5b wPostC3a [], by decide⟩,
    @reconcile_sorted_indices [wPostC3a, wPostC5b] [wPostC5b, wPostC3a]
      wSheetC3 wOutC3 rfl (List.Perm.swap wPostC5b wPostC3a []) (by decide)⟩

/-- C8 witness: a post with a malformed timestamp aborts the run. -/
theorem reconcile_fails_on_bad_timestamp_witness :
    (badTsPost ∈ [badTsPost]
      ∧ (badTsPost.timestamp = none
        ∨ ∃ s, badTsPost.timestamp = some s ∧ formatTimestamp s = none))
      ∧ ∃ e, reconcile [badTsPost] [] = Except.error e :=
  ⟨⟨List.mem_singleton.mpr rfl, Or.inr ⟨"garbage", rfl, by decide⟩⟩,
    reconcile_fails_on_bad_timestamp [] (List.mem_singleton.mpr rfl)
      (Or.inr ⟨"garbage", rfl, by decide⟩)⟩

end ThreadsToSheets
